import Mathlib

/-!
# Verification of the fx_automation analysis/backtest/optimization core

Shallow embedding, over exact rationals, of the algorithmic core of the
repository:

* `app/services/optimization_engine.py` — candidate evaluation, objective
  direction and the best-candidate update loop shared by all search
  strategies;
* `app/services/technical_analysis.py` — Dow-theory swing-point detection
  and the ZigZag indicator;
* `app/services/elliott_wave_analyzer.py` — Elliott wave pattern detection,
  Fibonacci ratio confidence, and the current-wave-position query (together
  with the Elliott score mapping of
  `app/services/enhanced_signal_generator.py`);
* `app/services/backtest_engine.py` — the bar-by-bar backtest loop with the
  scalping strategy, position close logic, and result analysis.

Python `float` values are modelled as `ℚ`; where the source can produce
IEEE special values (`inf` from a division by zero under numpy, `nan` from
`0/0` or an empty rolling window) the embedding makes the outcome of each
comparison against those values explicit.  Values that Python represents as
`None`, and dictionary keys that a code path leaves absent, are both
modelled as `Option.none` (every consumer in the source reads them through
`dict.get`, which collapses the two).
-/

-- Batteries marks the arithmetic of `Rat` irreducible, which blocks the
-- elaborator-side evaluation `decide` needs; the kernel never depended on
-- that attribute, so re-opening the definitions for this file only makes
-- concrete runs of the embedded code checkable by `decide`.
attribute [local semireducible] Rat.add Rat.mul Rat.inv Rat.sub Rat.ofScientific

namespace FxAuto

/-- A Python float score that may be one of the infinities the optimizer
uses as sentinels (`float('-inf')` / `float('inf')`); finite scores are
rationals. -/
inductive FScore
  | negInf
  | val (q : ℚ)
  | posInf
deriving DecidableEq, Repr

/-- The strict `<` of Python floats restricted to the values `FScore` can
hold. -/
def FScore.lt : FScore → FScore → Bool
  | .negInf, .negInf => false
  | .negInf, _ => true
  | .val _, .negInf => false
  | .val a, .val b => decide (a < b)
  | .val _, .posInf => true
  | .posInf, _ => false

/-- One OHLCV bar.  `bopen` stands for the source's `open` column (a Lean
keyword).  Timestamps are rationals; the backtest measures them in hours. -/
structure Bar where
  ts : ℚ
  bopen : ℚ
  high : ℚ
  low : ℚ
  close : ℚ
  volume : ℚ
deriving DecidableEq, Repr

instance : Inhabited Bar := ⟨⟨0, 0, 0, 0, 0, 0⟩⟩

/-- The `high` column at row `i` (out-of-range reads never occur on the
source's index ranges; they default to the zero bar). -/
def highAt (bars : List Bar) (i : ℕ) : ℚ := (bars.getD i default).high

/-- The `low` column at row `i`. -/
def lowAt (bars : List Bar) (i : ℕ) : ℚ := (bars.getD i default).low

/-- The `close` column at row `i`. -/
def closeAt (bars : List Bar) (i : ℕ) : ℚ := (bars.getD i default).close

/-- The timestamp at row `i`. -/
def tsAt (bars : List Bar) (i : ℕ) : ℚ := (bars.getD i default).ts

/-- The outcome of the comparison `a / b >= c` under numpy float semantics:
for `b = 0` the quotient is `inf` (true) when `a > 0`, `-inf` or `nan`
(false) otherwise. -/
def ratioGE (a b c : ℚ) : Bool :=
  if b = 0 then decide (0 < a) else decide (c ≤ a / b)

namespace TechnicalAnalysis

/-- The two swing point kinds of `technical_analysis.SwingPoint`. -/
inductive PointType
  | high
  | low
deriving DecidableEq, Repr

/-- `technical_analysis.SwingPoint`. -/
structure SwingPoint where
  index : ℕ
  price : ℚ
  ts : ℚ
  point_type : PointType
deriving DecidableEq, Repr

/-- The inner window scan of `DowTheoryAnalyzer.detect_swing_points` (lines
47-55): bar `i` is a swing high iff no other bar of the closed window
`[i-w, i+w]` has a high at least as large. -/
def is_swing_high (bars : List Bar) (w i : ℕ) : Bool :=
  (List.range' (i - w) (2 * w + 1)).all fun j =>
    j == i || decide (highAt bars j < highAt bars i)

/-- The mirrored scan for swing lows (lines 66-74). -/
def is_swing_low (bars : List Bar) (w i : ℕ) : Bool :=
  (List.range' (i - w) (2 * w + 1)).all fun j =>
    j == i || decide (lowAt bars i < lowAt bars j)

/-- The swing highs collected by the first loop of `detect_swing_points`,
in ascending index order. -/
def swing_high_points (bars : List Bar) (w : ℕ) : List SwingPoint :=
  (List.range' w (bars.length - 2 * w)).filterMap fun i =>
    if is_swing_high bars w i then
      some ⟨i, highAt bars i, tsAt bars i, .high⟩
    else none

/-- The swing lows collected by the second loop of `detect_swing_points`. -/
def swing_low_points (bars : List Bar) (w : ℕ) : List SwingPoint :=
  (List.range' w (bars.length - 2 * w)).filterMap fun i =>
    if is_swing_low bars w i then
      some ⟨i, lowAt bars i, tsAt bars i, .low⟩
    else none

/-- Fuelled merge of two index-ascending runs; with enough fuel this is the
stable `sort(key=index)` of line 85 applied to highs-then-lows (ties keep
the high first, as Python's stable sort does). -/
def mergeFuel : ℕ → List SwingPoint → List SwingPoint → List SwingPoint
  | 0, xs, ys => xs ++ ys
  | _ + 1, [], ys => ys
  | _ + 1, x :: xs, [] => x :: xs
  | f + 1, x :: xs, y :: ys =>
      if x.index ≤ y.index then x :: mergeFuel f xs (y :: ys)
      else y :: mergeFuel f (x :: xs) ys

/-- The time-ordered combined swing point list of line 85. -/
def merge_by_index (xs ys : List SwingPoint) : List SwingPoint :=
  mergeFuel (xs.length + ys.length) xs ys

/-- One step of `DowTheoryAnalyzer._filter_by_distance` (lines 100-113);
the accumulator holds the filtered list in reverse (head = last kept
point). -/
def filter_step (d : ℚ) (acc : List SwingPoint) (p : SwingPoint) :
    List SwingPoint :=
  match acc with
  | [] => [p]
  | lastp :: rest =>
    if p.point_type = lastp.point_type then
      if d ≤ |p.price - lastp.price| then p :: lastp :: rest
      else if (p.point_type = .high ∧ lastp.price < p.price) ∨
              (p.point_type = .low ∧ p.price < lastp.price) then
        p :: rest
      else lastp :: rest
    else p :: lastp :: rest

/-- `DowTheoryAnalyzer._filter_by_distance`, lines 93-115. -/
def filter_by_distance (d : ℚ) (pts : List SwingPoint) : List SwingPoint :=
  match pts with
  | [] => []
  | p :: rest => (rest.foldl (filter_step d) [p]).reverse

/-- `DowTheoryAnalyzer.detect_swing_points`, lines 30-91: too little data
returns the empty list; otherwise the strict-extremum scan over interior
indices `[w, n-w)`, time-ordered and distance-filtered. -/
def detect_swing_points (bars : List Bar) (w : ℕ) (d : ℚ) :
    List SwingPoint :=
  if bars.length < 2 * w + 1 then []
  else
    filter_by_distance d
      (merge_by_index (swing_high_points bars w) (swing_low_points bars w))

/-- The two ZigZag point kinds. -/
inductive ZigZagKind
  | peak
  | trough
deriving DecidableEq, Repr

/-- One emitted ZigZag point (`technical_analysis.ZigZagIndicator`). -/
structure ZigZagPoint where
  index : ℕ
  price : ℚ
  ts : ℚ
  kind : ZigZagKind
deriving DecidableEq, Repr

/-- The tracking direction of the ZigZag state machine. -/
inductive ZigZagDir
  | up
  | down
deriving DecidableEq, Repr

/-- The running state of `ZigZagIndicator.calculate`: direction, running
extreme with its index, and the emitted points (most recent first). -/
structure ZigZagState where
  dir : ZigZagDir
  extreme : ℚ
  exIndex : ℕ
  ptsRev : List ZigZagPoint
deriving DecidableEq, Repr

/-- One loop iteration of `ZigZagIndicator.calculate` (lines 248-294):
extend the running extreme, then emit and flip when the reversal from the
extreme reaches the deviation threshold. -/
def zigzag_step (dev : ℚ) (bars : List Bar) (st : ZigZagState) (i : ℕ) :
    ZigZagState :=
  let hi := highAt bars i
  let lo := lowAt bars i
  match st.dir with
  | .up =>
    let st1 := if st.extreme < hi then { st with extreme := hi, exIndex := i } else st
    if ratioGE (st1.extreme - lo) st1.extreme dev then
      { dir := .down, extreme := lo, exIndex := i,
        ptsRev := ⟨st1.exIndex, st1.extreme, tsAt bars st1.exIndex, .peak⟩ :: st1.ptsRev }
    else st1
  | .down =>
    let st1 := if lo < st.extreme then { st with extreme := lo, exIndex := i } else st
    if ratioGE (hi - st1.extreme) st1.extreme dev then
      { dir := .up, extreme := hi, exIndex := i,
        ptsRev := ⟨st1.exIndex, st1.extreme, tsAt bars st1.exIndex, .trough⟩ :: st1.ptsRev }
    else st1

/-- The kind of the point flushed at end of sequence for a given direction
(line 302). -/
def flush_kind : ZigZagDir → ZigZagKind
  | .up => .peak
  | .down => .trough

/-- The final machine state of `ZigZagIndicator.calculate` after the main
loop over rows `1..n-1` (initial state: tracking up from the first high,
line 244-246). -/
def zigzag_final_state (bars : List Bar) (dev : ℚ) : ZigZagState :=
  (List.range' 1 (bars.length - 1)).foldl (zigzag_step dev bars)
    ⟨.up, highAt bars 0, 0, []⟩

/-- `ZigZagIndicator.calculate`, lines 228-306: fewer than 3 bars yield no
points; otherwise the loop result plus — when anything was emitted — the
flushed final extreme (lines 296-303).  `dev` is the fractional deviation
(the constructor's percentage already divided by 100). -/
def zigzag_calculate (bars : List Bar) (dev : ℚ) : List ZigZagPoint :=
  if bars.length < 3 then []
  else
    let stF := zigzag_final_state bars dev
    let final : ZigZagPoint :=
      ⟨stF.exIndex, stF.extreme, tsAt bars stF.exIndex, flush_kind stF.dir⟩
    (if stF.ptsRev = [] then stF.ptsRev else final :: stF.ptsRev).reverse

end TechnicalAnalysis

/-- A concrete 12-bar series whose highs and lows are strictly
monotonically increasing. -/
def incBars12 : List Bar :=
  (List.range 12).map fun i : ℕ =>
    ⟨(i : ℚ), 100 + i, 100 + i + 1/2, 100 + i - 1/2, 100 + i, 0⟩

namespace TechnicalAnalysis

/-- The kind the most recently emitted ZigZag point must have while the
state machine is tracking in a given direction (a peak emission flips the
direction to `down`, a trough emission flips it to `up`). -/
def pending_kind : ZigZagDir → ZigZagKind
  | .up => .trough
  | .down => .peak

/-- The alternation invariant of the ZigZag state machine. -/
def zz_inv (st : ZigZagState) : Prop :=
  List.Chain' (fun p q => p.kind ≠ q.kind) st.ptsRev ∧
  ∀ p, st.ptsRev.head? = some p → p.kind = pending_kind st.dir

end TechnicalAnalysis

namespace ElliottWave

open TechnicalAnalysis

instance : Inhabited ZigZagPoint := ⟨⟨0, 0, 0, .peak⟩⟩

/-- The wave labels `'1'..'5','A','B','C'` of
`elliott_wave_analyzer.WavePattern.wave_type`. -/
inductive WaveLabel
  | w1
  | w2
  | w3
  | w4
  | w5
  | wA
  | wB
  | wC
deriving DecidableEq, Repr

/-- The keys of the `fibonacci_ratios` dictionary a wave can carry. -/
inductive FibKey
  | retracement
  | extension
  | ratio_to_wave1
  | ratio_to_waveA
deriving DecidableEq, Repr

/-- `elliott_wave_analyzer.WavePattern` (its `fibonacci_ratios` dict as an
association list). -/
structure WavePattern where
  wave_type : WaveLabel
  start_index : ℕ
  end_index : ℕ
  start_price : ℚ
  end_price : ℚ
  confidence : ℚ
  fibonacci_ratios : List (FibKey × ℚ)
deriving DecidableEq, Repr

/-- The wave roles keyed in `ElliottWaveAnalyzer.ideal_ratios` (the
analyzer is only ever called with these seven keys, so the source's
unknown-key fallback `0.5` is unreachable). -/
inductive WaveRole
  | wave2
  | wave3
  | wave4
  | wave5
  | waveA
  | waveB
  | waveC
deriving DecidableEq, Repr

/-- One row of the `ideal_ratios` table: minimum, maximum and ideal
Fibonacci ratio for a wave role. -/
structure RatioRange where
  min : ℚ
  max : ℚ
  ideal : ℚ
deriving DecidableEq, Repr

/-- `ElliottWaveAnalyzer.ideal_ratios` (constructor lines 40-48). -/
def ideal_ratios : WaveRole → RatioRange
  | .wave2 => ⟨0.382, 0.618, 0.5⟩
  | .wave3 => ⟨1.618, 2.618, 1.618⟩
  | .wave4 => ⟨0.236, 0.5, 0.382⟩
  | .wave5 => ⟨0.618, 1.0, 1.0⟩
  | .waveA => ⟨0.382, 0.618, 0.5⟩
  | .waveB => ⟨0.382, 0.886, 0.618⟩
  | .waveC => ⟨0.618, 1.618, 1.0⟩

/-- The body of `ElliottWaveAnalyzer._calculate_ratio_confidence` (lines
350-363) over an explicit ratio range. -/
def ratio_confidence_core (actual_ratio mn mx idl : ℚ) : ℚ :=
  if mn ≤ actual_ratio ∧ actual_ratio ≤ mx then
    1 - |actual_ratio - idl| / (mx - mn) * 0.5
  else if actual_ratio < mn then
    max 0.3 (0.7 - (mn - actual_ratio) / mn)
  else
    max 0.3 (0.7 - (actual_ratio - mx) / mx)

/-- `ElliottWaveAnalyzer._calculate_ratio_confidence`, lines 340-363. -/
def calculate_ratio_confidence (actual_ratio : ℚ) (wave_type : WaveRole) : ℚ :=
  ratio_confidence_core actual_ratio (ideal_ratios wave_type).min
    (ideal_ratios wave_type).max (ideal_ratios wave_type).ideal

/-- The price of the k-th point of a window. -/
def priceAt (points : List ZigZagPoint) (k : ℕ) : ℚ :=
  (points.getD k default).price

/-- The index of the k-th point of a window. -/
def indexAt (points : List ZigZagPoint) (k : ℕ) : ℕ :=
  (points.getD k default).index

/-- Wave-2 retracement of an upward impulse window,
`(p1 - p2) / (p1 - p0)` guarded by `p1 > p0` (line 143). -/
def up_wave2_retrace (points : List ZigZagPoint) : ℚ :=
  if priceAt points 0 < priceAt points 1 then
    (priceAt points 1 - priceAt points 2) / (priceAt points 1 - priceAt points 0)
  else 0

/-- Wave-3 extension of an upward impulse window (line 151). -/
def up_wave3_extension (points : List ZigZagPoint) : ℚ :=
  if priceAt points 0 < priceAt points 1 then
    (priceAt points 3 - priceAt points 2) / (priceAt points 1 - priceAt points 0)
  else 0

/-- Wave-4 retracement of an upward impulse window (line 159). -/
def up_wave4_retrace (points : List ZigZagPoint) : ℚ :=
  if priceAt points 2 < priceAt points 3 then
    (priceAt points 3 - priceAt points 4) / (priceAt points 3 - priceAt points 2)
  else 0

/-- Wave-5 to wave-1 ratio of an upward impulse window (line 167). -/
def up_wave5_ratio (points : List ZigZagPoint) : ℚ :=
  if priceAt points 0 < priceAt points 1 then
    (priceAt points 5 - priceAt points 4) / (priceAt points 1 - priceAt points 0)
  else 0

/-- `ElliottWaveAnalyzer._check_upward_impulse`, lines 104-180: the three
Elliott rules, per-wave Fibonacci confidences, and the mean-confidence
acceptance gate. -/
def check_upward_impulse (points : List ZigZagPoint) :
    Option (List WavePattern) :=
  if points.length < 8 then none
  else if priceAt points 2 ≤ priceAt points 0 then none
  else if priceAt points 3 - priceAt points 2 < priceAt points 1 - priceAt points 0 ∧
      priceAt points 3 - priceAt points 2 < priceAt points 5 - priceAt points 4 then none
  else if priceAt points 4 ≤ priceAt points 1 then none
  else if 0.6 ≤ (calculate_ratio_confidence (up_wave2_retrace points) .wave2 +
      calculate_ratio_confidence (up_wave3_extension points) .wave3 +
      calculate_ratio_confidence (up_wave4_retrace points) .wave4 +
      calculate_ratio_confidence (up_wave5_ratio points) .wave5) / 4 then
    some [⟨.w1, indexAt points 0, indexAt points 1, priceAt points 0,
            priceAt points 1, 0.8, []⟩,
          ⟨.w2, indexAt points 1, indexAt points 2, priceAt points 1,
            priceAt points 2,
            calculate_ratio_confidence (up_wave2_retrace points) .wave2,
            [(.retracement, up_wave2_retrace points)]⟩,
          ⟨.w3, indexAt points 2, indexAt points 3, priceAt points 2,
            priceAt points 3,
            calculate_ratio_confidence (up_wave3_extension points) .wave3,
            [(.extension, up_wave3_extension points)]⟩,
          ⟨.w4, indexAt points 3, indexAt points 4, priceAt points 3,
            priceAt points 4,
            calculate_ratio_confidence (up_wave4_retrace points) .wave4,
            [(.retracement, up_wave4_retrace points)]⟩,
          ⟨.w5, indexAt points 4, indexAt points 5, priceAt points 4,
            priceAt points 5,
            calculate_ratio_confidence (up_wave5_ratio points) .wave5,
            [(.ratio_to_wave1, up_wave5_ratio points)]⟩]
  else none

/-- Wave-2 retracement of a downward impulse window (line 221). -/
def dn_wave2_retrace (points : List ZigZagPoint) : ℚ :=
  if priceAt points 1 < priceAt points 0 then
    (priceAt points 2 - priceAt points 1) / (priceAt points 0 - priceAt points 1)
  else 0

/-- Wave-3 extension of a downward impulse window (line 229). -/
def dn_wave3_extension (points : List ZigZagPoint) : ℚ :=
  if priceAt points 1 < priceAt points 0 then
    (priceAt points 2 - priceAt points 3) / (priceAt points 0 - priceAt points 1)
  else 0

/-- Wave-4 retracement of a downward impulse window (line 237). -/
def dn_wave4_retrace (points : List ZigZagPoint) : ℚ :=
  if priceAt points 3 < priceAt points 2 then
    (priceAt points 4 - priceAt points 3) / (priceAt points 2 - priceAt points 3)
  else 0

/-- Wave-5 to wave-1 ratio of a downward impulse window (line 245). -/
def dn_wave5_ratio (points : List ZigZagPoint) : ℚ :=
  if priceAt points 1 < priceAt points 0 then
    (priceAt points 4 - priceAt points 5) / (priceAt points 0 - priceAt points 1)
  else 0

/-- `ElliottWaveAnalyzer._check_downward_impulse`, lines 182-258. -/
def check_downward_impulse (points : List ZigZagPoint) :
    Option (List WavePattern) :=
  if points.length < 8 then none
  else if priceAt points 0 ≤ priceAt points 2 then none
  else if priceAt points 2 - priceAt points 3 < priceAt points 0 - priceAt points 1 ∧
      priceAt points 2 - priceAt points 3 < priceAt points 4 - priceAt points 5 then none
  else if priceAt points 1 ≤ priceAt points 4 then none
  else if 0.6 ≤ (calculate_ratio_confidence (dn_wave2_retrace points) .wave2 +
      calculate_ratio_confidence (dn_wave3_extension points) .wave3 +
      calculate_ratio_confidence (dn_wave4_retrace points) .wave4 +
      calculate_ratio_confidence (dn_wave5_ratio points) .wave5) / 4 then
    some [⟨.w1, indexAt points 0, indexAt points 1, priceAt points 0,
            priceAt points 1, 0.8, []⟩,
          ⟨.w2, indexAt points 1, indexAt points 2, priceAt points 1,
            priceAt points 2,
            calculate_ratio_confidence (dn_wave2_retrace points) .wave2,
            [(.retracement, dn_wave2_retrace points)]⟩,
          ⟨.w3, indexAt points 2, indexAt points 3, priceAt points 2,
            priceAt points 3,
            calculate_ratio_confidence (dn_wave3_extension points) .wave3,
            [(.extension, dn_wave3_extension points)]⟩,
          ⟨.w4, indexAt points 3, indexAt points 4, priceAt points 3,
            priceAt points 4,
            calculate_ratio_confidence (dn_wave4_retrace points) .wave4,
            [(.retracement, dn_wave4_retrace points)]⟩,
          ⟨.w5, indexAt points 4, indexAt points 5, priceAt points 4,
            priceAt points 5,
            calculate_ratio_confidence (dn_wave5_ratio points) .wave5,
            [(.ratio_to_wave1, dn_wave5_ratio points)]⟩]
  else none

/-- Wave-B retracement of a corrective window (lines 301 and 320). -/
def corr_waveB_retrace (points : List ZigZagPoint) (direction : ZigZagDir) : ℚ :=
  match direction with
  | .up =>
    if priceAt points 0 < priceAt points 1 then
      (priceAt points 1 - priceAt points 2) / (priceAt points 1 - priceAt points 0)
    else 0
  | .down =>
    if priceAt points 1 < priceAt points 0 then
      (priceAt points 2 - priceAt points 1) / (priceAt points 0 - priceAt points 1)
    else 0

/-- Wave-C to wave-A ratio of a corrective window (lines 308 and 327). -/
def corr_waveC_ratio (points : List ZigZagPoint) (direction : ZigZagDir) : ℚ :=
  match direction with
  | .up =>
    if priceAt points 0 < priceAt points 1 then
      (priceAt points 3 - priceAt points 2) / (priceAt points 1 - priceAt points 0)
    else 0
  | .down =>
    if priceAt points 1 < priceAt points 0 then
      (priceAt points 2 - priceAt points 3) / (priceAt points 0 - priceAt points 1)
    else 0

/-- `ElliottWaveAnalyzer._check_corrective_pattern`, lines 283-338 (both
directions; acceptance gate: mean of the B and C confidences at least
0.5). -/
def check_corrective_pattern (points : List ZigZagPoint)
    (direction : ZigZagDir) : Option (List WavePattern) :=
  if points.length < 4 then none
  else if 0.5 ≤ (calculate_ratio_confidence (corr_waveB_retrace points direction) .waveB +
      calculate_ratio_confidence (corr_waveC_ratio points direction) .waveC) / 2 then
    some [⟨.wA, indexAt points 0, indexAt points 1, priceAt points 0,
            priceAt points 1, 0.7, []⟩,
          ⟨.wB, indexAt points 1, indexAt points 2, priceAt points 1,
            priceAt points 2,
            calculate_ratio_confidence (corr_waveB_retrace points direction) .waveB,
            [(.retracement, corr_waveB_retrace points direction)]⟩,
          ⟨.wC, indexAt points 2, indexAt points 3, priceAt points 2,
            priceAt points 3,
            calculate_ratio_confidence (corr_waveC_ratio points direction) .waveC,
            [(.ratio_to_waveA, corr_waveC_ratio points direction)]⟩]
  else none

/-- `ElliottWaveAnalyzer._detect_impulse_waves`, lines 80-102: slide an
8-point window over every start position; a trough start is checked as an
upward impulse, a peak start as a downward one. -/
def detect_impulse_waves (zigzag_points : List ZigZagPoint) :
    List WavePattern :=
  if zigzag_points.length < 8 then []
  else
    (List.range (zigzag_points.length - 7)).flatMap fun i =>
      match (zigzag_points.getD i default).kind with
      | .trough => (check_upward_impulse ((zigzag_points.drop i).take 8)).getD []
      | .peak => (check_downward_impulse ((zigzag_points.drop i).take 8)).getD []

/-- `ElliottWaveAnalyzer._detect_corrective_waves`, lines 260-281. -/
def detect_corrective_waves (zigzag_points : List ZigZagPoint) :
    List WavePattern :=
  if zigzag_points.length < 4 then []
  else
    (List.range (zigzag_points.length - 3)).flatMap fun i =>
      match (zigzag_points.getD i default).kind with
      | .trough => (check_corrective_pattern ((zigzag_points.drop i).take 4) .up).getD []
      | .peak => (check_corrective_pattern ((zigzag_points.drop i).take 4) .down).getD []

/-- `ElliottWaveAnalyzer.detect_elliott_waves`, lines 53-78. -/
def detect_elliott_waves (zigzag_points : List ZigZagPoint) :
    List WavePattern :=
  if zigzag_points.length < 5 then []
  else detect_impulse_waves zigzag_points ++ detect_corrective_waves zigzag_points

/-- Python's `max(wave_patterns, key=lambda x: x.end_index)` (line 434):
scan keeping the current element unless a strictly larger key appears, so
the first maximal element wins. -/
def latest_pattern (h : WavePattern) (t : List WavePattern) : WavePattern :=
  t.foldl (fun best x => if best.end_index < x.end_index then x else best) h

/-- The two wave family kinds reported by `get_current_wave_position`. -/
inductive WaveKind
  | impulse
  | corrective
deriving DecidableEq, Repr

/-- The result dictionary of
`ElliottWaveAnalyzer.get_current_wave_position`; `score`, `next_target`
and `fibonacci_ratios` are absent (`none`) in the empty-input branch. -/
structure CurrentWavePosition where
  current_wave : Option WaveLabel
  wave_kind : Option WaveKind
  confidence : ℚ
  score : Option ℚ
  next_target : Option ℚ
  fibonacci_ratios : Option (List (FibKey × ℚ))
deriving DecidableEq, Repr

/-- The `wave_scores` dictionary internal to `get_current_wave_position`
(lines 437-446); every label is a key, so the `.get(..., 10)` fallback is
unreachable. -/
def wave_scores : WaveLabel → ℚ
  | .w1 => 30
  | .w2 => 10
  | .w3 => 40
  | .w4 => 10
  | .w5 => 20
  | .wA => 15
  | .wB => 10
  | .wC => 15

/-- Whether a label belongs to the impulse family
(`in ['1','2','3','4','5']`, line 462). -/
def label_is_impulse : WaveLabel → Bool
  | .w1 => true
  | .w2 => true
  | .w3 => true
  | .w4 => true
  | .w5 => true
  | .wA => false
  | .wB => false
  | .wC => false

/-- `ElliottWaveAnalyzer.get_current_wave_position`, lines 415-467. -/
def get_current_wave_position (wave_patterns : List WavePattern) :
    CurrentWavePosition :=
  match wave_patterns with
  | [] => ⟨none, none, 0, none, none, none⟩
  | h :: t =>
    let latest := latest_pattern h t
    let next_target :=
      if latest.wave_type = .w3 then
        some (if latest.start_price < latest.end_price then
            latest.start_price + |latest.end_price - latest.start_price| * 1.618
          else
            latest.start_price - |latest.end_price - latest.start_price| * 1.618)
      else none
    ⟨some latest.wave_type,
     some (if label_is_impulse latest.wave_type then .impulse else .corrective),
     latest.confidence,
     some (wave_scores latest.wave_type),
     next_target,
     some latest.fibonacci_ratios⟩

/-- The `base_scores` table of
`EnhancedSignalGenerator._calculate_elliott_wave_score`
(`enhanced_signal_generator.py` lines 308-317). -/
def base_scores : WaveLabel → ℚ
  | .w3 => 40
  | .w1 => 30
  | .w5 => 20
  | .wC => 15
  | .wA => 10
  | .w2 => 5
  | .w4 => 5
  | .wB => 5

/-- `EnhancedSignalGenerator._calculate_elliott_wave_score`
(`enhanced_signal_generator.py` lines 293-324): base score of the current
wave label (0 when there is none), scaled by the reported confidence and
capped at 40.  Together with `get_current_wave_position` this is the
composite scorer's current-position query. -/
def calculate_elliott_wave_score (cp : CurrentWavePosition) : ℚ :=
  let base := match cp.current_wave with
    | some l => base_scores l
    | none => 0
  min (base * cp.confidence) 40

/-- A concrete 5-point ZigZag sequence on which the corrective detector
accepts one A-B-C window. -/
def zz5 : List ZigZagPoint :=
  [⟨0, 100, 0, .trough⟩, ⟨1, 200, 1, .peak⟩, ⟨2, 150, 2, .trough⟩,
   ⟨3, 250, 3, .peak⟩, ⟨4, 140, 4, .trough⟩]

/-- The pattern the current-position query reports on a non-empty input,
for reference in C7's statement. -/
def selected_pattern : List WavePattern → Option WavePattern
  | [] => none
  | h :: t => some (latest_pattern h t)

/-- A concrete corrective pattern ending at index 3. -/
def patA : WavePattern := ⟨.wA, 0, 3, 100, 150, 7/10, []⟩

/-- A concrete impulse wave-3 pattern ending at index 9. -/
def pat3 : WavePattern := ⟨.w3, 3, 9, 150, 300, 9/10, []⟩

end ElliottWave

namespace BacktestEngine

/-- Position side: the signal action that opened it (`'buy'`/`'sell'`). -/
inductive Side
  | buy
  | sell
deriving DecidableEq, Repr

/-- An open position of `_execute_backtest` (lines 155-164).  The source
dict's `symbol` and `score` entries are never read again and are omitted. -/
structure Position where
  side : Side
  entry_time : ℚ
  entry_price : ℚ
  quantity : ℚ
  stop_loss : Option ℚ
  take_profit : Option ℚ
deriving DecidableEq, Repr

/-- The exit reasons produced by `_should_close_position` and the end-of-
data force close. -/
inductive CloseReason
  | stop_loss
  | take_profit
  | time_limit
  | trend_reversal
  | backtest_end
deriving DecidableEq, Repr

/-- A closed trade record (lines 184-194 and 221-231). -/
structure Trade where
  side : Side
  entry_time : ℚ
  exit_time : ℚ
  entry_price : ℚ
  exit_price : ℚ
  quantity : ℚ
  profit_loss : ℚ
  exit_reason : CloseReason
deriving DecidableEq, Repr

instance : Inhabited Trade := ⟨⟨.buy, 0, 0, 0, 0, 0, 0, .backtest_end⟩⟩

/-- One equity-curve entry per simulated bar (lines 206-211). -/
structure EquityPoint where
  ts : ℚ
  balance : ℚ
  unrealized_pnl : ℚ
  total_equity : ℚ
deriving DecidableEq, Repr

/-- The strategy selector read by `_should_close_position`; every value
other than `'swing'` behaves like scalping there, so two constructors
suffice. -/
inductive StrategyType
  | scalping
  | swing
deriving DecidableEq, Repr

/-- The parameter-dict entries `_should_close_position` and
`_update_trailing_stop` read, with the source's `.get` defaults.  A key
present in the dict is modelled by a non-default field value. -/
structure CloseParams where
  strategy_type : StrategyType
  max_hold_hours : ℚ := 1
  swing_max_hold_hours : ℚ := 120
  use_trailing_stop : Bool := true
  trailing_stop_distance : ℚ := 1/200
deriving DecidableEq, Repr

/-- Python truthiness of an optional float level: `None` and `0.0` are
falsy (the `position['stop_loss'] and ...` guards of lines 676-683). -/
def truthy (o : Option ℚ) : Bool :=
  match o with
  | none => false
  | some v => decide (v ≠ 0)

/-- The stop-loss breach test of lines 675-681: for a long, close at or
below the stop; for a short, close at or above it. -/
def sl_breach (pos : Position) (close : ℚ) : Bool :=
  match pos.side with
  | .buy => truthy pos.stop_loss && decide (close ≤ pos.stop_loss.getD 0)
  | .sell => truthy pos.stop_loss && decide (pos.stop_loss.getD 0 ≤ close)

/-- The take-profit breach test of lines 678-684. -/
def tp_breach (pos : Position) (close : ℚ) : Bool :=
  match pos.side with
  | .buy => truthy pos.take_profit && decide (pos.take_profit.getD 0 ≤ close)
  | .sell => truthy pos.take_profit && decide (close ≤ pos.take_profit.getD 0)

/-- The maximum holding time the strategy allows (lines 687-691). -/
def max_hold_of (p : CloseParams) : ℚ :=
  match p.strategy_type with
  | .swing => p.swing_max_hold_hours
  | .scalping => p.max_hold_hours

/-- `BacktestEngine._update_trailing_stop`, lines 717-742: ratchet the
stop towards the price; with no existing stop the `>` comparison against
`None` raises and the handler returns `None`. -/
def update_trailing_stop (pos : Position) (close : ℚ) (p : CloseParams) :
    Option ℚ :=
  match pos.side with
  | .buy =>
    match pos.stop_loss with
    | some s =>
      if s < close * (1 - p.trailing_stop_distance) then
        some (close * (1 - p.trailing_stop_distance))
      else none
    | none => none
  | .sell =>
    match pos.stop_loss with
    | some s =>
      if close * (1 + p.trailing_stop_distance) < s then
        some (close * (1 + p.trailing_stop_distance))
      else none
    | none => none

/-- The trailing-stop assignment of lines 699-702: only for the swing
strategy with trailing enabled, and only when the returned level is truthy
(`if trailing_stop_updated:`). -/
def apply_trailing (pos : Position) (close : ℚ) (p : CloseParams) : Position :=
  if p.strategy_type = .swing ∧ p.use_trailing_stop then
    match update_trailing_stop pos close p with
    | some v => if v = 0 then pos else { pos with stop_loss := some v }
    | none => pos
  else pos

/-- The trend-reversal close test of lines 704-709. -/
def trend_reversal_cond (pos : Position) (trend : ℤ) : Bool :=
  match pos.side with
  | .buy => decide (trend = -1)
  | .sell => decide (trend = 1)

/-- `BacktestEngine._should_close_position`, lines 663-715.  `now` is
`data.index[-1]` (hours), `trend` the `trend` column at the current row.
Returns the close decision and the (possibly trailing-updated) position.
Order in the source: stop/target breach, then holding-time breach, then
the trailing update, then trend reversal. -/
def should_close_position (pos : Position) (current_price : Bar) (now : ℚ)
    (trend : ℤ) (p : CloseParams) : Option CloseReason × Position :=
  if sl_breach pos current_price.close then (some .stop_loss, pos)
  else if tp_breach pos current_price.close then (some .take_profit, pos)
  else if max_hold_of p < now - pos.entry_time then (some .time_limit, pos)
  else
    let pos1 := apply_trailing pos current_price.close p
    if trend_reversal_cond pos trend then (some .trend_reversal, pos1)
    else (none, pos1)

/-- Modelled from the spec:  the claimed evaluation order of claim C2 —
stop-loss/take-profit breach, THEN the trailing-stop ratchet update, THEN
the max-holding-time breach, then trend reversal.  Only the relative order
of the trailing update and the holding-time check differs from
`should_close_position`. -/
def should_close_position_claimed (pos : Position) (current_price : Bar)
    (now : ℚ) (trend : ℤ) (p : CloseParams) : Option CloseReason × Position :=
  if sl_breach pos current_price.close then (some .stop_loss, pos)
  else if tp_breach pos current_price.close then (some .take_profit, pos)
  else
    let pos1 := apply_trailing pos current_price.close p
    if max_hold_of p < now - pos1.entry_time then (some .time_limit, pos1)
    else if trend_reversal_cond pos1 trend then (some .trend_reversal, pos1)
    else (none, pos1)

/-- Python `int()` truncation toward zero of an exact rational (the
`int(score * 1.2)` / `int(score * 0.8)` adjustments; on every reachable
score the float product rounds to the same integer as the exact one). -/
def pyInt (q : ℚ) : ℤ :=
  if 0 ≤ q then ⌊q⌋ else ⌈q⌉

/-- Round half to even to an integer (Python's `round`). -/
def roundHalfEven (q : ℚ) : ℤ :=
  if q - ⌊q⌋ < 1/2 then ⌊q⌋
  else if 1/2 < q - ⌊q⌋ then ⌊q⌋ + 1
  else if (⌊q⌋ : ℤ) % 2 = 0 then ⌊q⌋ else ⌊q⌋ + 1

/-- Python's `round(x, nd)` on an exact rational. -/
def pyRound (nd : ℕ) (q : ℚ) : ℚ :=
  (roundHalfEven (q * 10 ^ nd) : ℚ) / 10 ^ nd

/-- Python's `round(x, 2)`. -/
def pyRound2 (q : ℚ) : ℚ := pyRound 2 q

/-- The outcome of the numpy comparison `a / b > c` (when `b = 0` the
quotient is `inf`, `-inf` or `nan` by the sign of `a`). -/
def divGT (a b c : ℚ) : Bool :=
  if b = 0 then decide (0 < a) else decide (c < a / b)

/-- The outcome of the numpy comparison `a / b < c`. -/
def divLT (a b c : ℚ) : Bool :=
  if b = 0 then decide (a < 0) else decide (a / b < c)

/-- The sum of `f` over the index window `[s, s+n)`. -/
def sum_range (f : ℕ → ℚ) (s n : ℕ) : ℚ :=
  ((List.range' s n).map f).sum

/-- The close at row `j` of a close-price list. -/
def closeQ (closes : List ℚ) (j : ℕ) : ℚ := closes.getD j 0

/-- The clipped gain series of `_calculate_rsi` (line 282): the `diff` at
row 0 is `NaN`, which `where(delta > 0, 0)` maps to 0. -/
def gainAt (closes : List ℚ) (j : ℕ) : ℚ :=
  if j = 0 then 0
  else if closeQ closes (j - 1) < closeQ closes j then
    closeQ closes j - closeQ closes (j - 1)
  else 0

/-- The clipped (positive) loss series of `_calculate_rsi` (line 283). -/
def lossAt (closes : List ℚ) (j : ℕ) : ℚ :=
  if j = 0 then 0
  else if closeQ closes j < closeQ closes (j - 1) then
    closeQ closes (j - 1) - closeQ closes j
  else 0

/-- `BacktestEngine._calculate_rsi` at row `i` (lines 279-286): `none`
both while the rolling window is not yet full and when the mean gain and
mean loss are both zero (`0/0 = NaN`); mean loss zero with positive mean
gain gives `rs = inf`, hence RSI exactly 100. -/
def rsiAt (closes : List ℚ) (period : ℕ) (i : ℕ) : Option ℚ :=
  if i + 1 < period then none
  else
    let g := sum_range (gainAt closes) (i + 1 - period) period / period
    let l := sum_range (lossAt closes) (i + 1 - period) period / period
    if 0 < l then some (100 - 100 / (1 + g / l))
    else if 0 < g then some 100
    else none

/-- The rolling moving average column `ma` at row `i` (line 252). -/
def maAt (closes : List ℚ) (period : ℕ) (i : ℕ) : Option ℚ :=
  if i + 1 < period then none
  else some (sum_range (closeQ closes) (i + 1 - period) period / period)

/-- The swing-high prices collected by `_calculate_dow_theory_signals`
(lines 315-341; the window is the fixed 5 and the scan is the same strict
extremum test as the analyzer's). -/
def bt_swing_high_prices (bars : List Bar) : List ℚ :=
  (List.range' 5 (bars.length - 10)).filterMap fun i =>
    if TechnicalAnalysis.is_swing_high bars 5 i then some (highAt bars i)
    else none

/-- The swing-low prices of the same scan. -/
def bt_swing_low_prices (bars : List Bar) : List ℚ :=
  (List.range' 5 (bars.length - 10)).filterMap fun i =>
    if TechnicalAnalysis.is_swing_low bars 5 i then some (lowAt bars i)
    else none

/-- The blanket trend direction of lines 344-355: with at least two swing
highs and two swing lows, compare the last two of each kind. -/
def trend_dir (bars : List Bar) : ℤ :=
  let highs := bt_swing_high_prices bars
  let lows := bt_swing_low_prices bars
  if 2 ≤ highs.length ∧ 2 ≤ lows.length then
    if highs.getD (highs.length - 2) 0 < highs.getD (highs.length - 1) 0 ∧
        lows.getD (lows.length - 2) 0 < lows.getD (lows.length - 1) 0 then 1
    else if highs.getD (highs.length - 1) 0 < highs.getD (highs.length - 2) 0 ∧
        lows.getD (lows.length - 1) 0 < lows.getD (lows.length - 2) 0 then -1
    else 0
  else 0

/-- The `trend` column at row `i`: the blanket label is written only onto
the last 50 rows (`data.iloc[-50:]`, lines 351 and 355), everything else
stays 0. -/
def trendAt (bars : List Bar) (i : ℕ) : ℤ :=
  if bars.length ≤ i + 50 then trend_dir bars else 0

/-- The signal actions. -/
inductive Action
  | buy
  | sell
  | hold
deriving DecidableEq, Repr

/-- The signal dictionary of `_generate_scalping_signal`. -/
structure Signal where
  action : Action
  score : ℤ
  stop_loss : Option ℚ
  take_profit : Option ℚ
deriving DecidableEq, Repr

/-- The parameter-dict entries the scalping backtest reads, with the
source's `.get` defaults.  Non-positive rolling periods would raise inside
`_calculate_technical_indicators` in the source and are excluded from the
claims' scope. -/
structure ScalpParams where
  entry_threshold : ℚ := 50
  max_hold_hours : ℚ := 1
  ma_period : ℕ := 20
  rsi_period : ℕ := 14
deriving DecidableEq, Repr

/-- The default parameter dict (`parameters = {}`). -/
def default_scalp_params : ScalpParams := {}

/-- The last five closes of the prefix (`data['close'].tail(5)`). -/
def last5 (closes : List ℚ) : List ℚ := closes.drop (closes.length - 5)

/-- Their mean (`recent_prices.mean()`), the scalping short MA. -/
def short_ma (closes : List ℚ) : ℚ := (last5 closes).sum / 5

/-- The sum of squared deviations of the last five closes; the sample
standard deviation `recent_prices.std()` is `sqrt (ssd5 / 4)`. -/
def ssd5 (closes : List ℚ) : ℚ :=
  ((last5 closes).map (fun x => (x - short_ma closes) ^ 2)).sum

/-- The band test `0.0008 < volatility < 0.003` (line 600) decided
exactly: for a positive mean it is equivalent to squaring both strict
comparisons of `sqrt (ssd5/4) / mean`; a non-positive mean (quotient
non-positive, `inf` or `nan`) always fails the upper bound. -/
def vol_in_band (closes : List ℚ) : Bool :=
  decide (0 < short_ma closes ∧
    (8/10000 * short_ma closes) ^ 2 < ssd5 closes / 4 ∧
    ssd5 closes / 4 < (3/1000 * short_ma closes) ^ 2)

/-- The test `volatility > 0.005` (line 602), exactly: a positive mean
squares the comparison; a zero mean with positive spread gives `inf`
(true); everything else (`nan` or non-positive quotient) is false. -/
def vol_high (closes : List ℚ) : Bool :=
  decide ((0 < short_ma closes ∧
      (5/1000 * short_ma closes) ^ 2 < ssd5 closes / 4) ∨
    (short_ma closes = 0 ∧ 0 < ssd5 closes))

/-- The price-action score block of lines 563-603 (only entered with at
least five rows): price-change step, MA-deviation step, momentum
continuation step, then the volatility multiplier with Python `int`
truncation. -/
def scalping_base_score (closes : List ℚ) : ℤ :=
  let m := closes.length
  let cur := closeQ closes (m - 1)
  let prev := if 1 < m then closeQ closes (m - 2) else cur
  let s1 : ℤ :=
    (if divGT (cur - prev) prev (5/10000) then 50
     else if divLT (cur - prev) prev (-5/10000) then -50 else 0)
    + (if divGT (cur - short_ma closes) (short_ma closes) (8/10000) then 25
       else if divLT (cur - short_ma closes) (short_ma closes) (-8/10000) then -25 else 0)
    + (if divGT (cur - prev) prev 0 ∧ divGT (prev - closeQ closes (m - 3)) (closeQ closes (m - 3)) 0 then 15
       else if divLT (cur - prev) prev 0 ∧ divLT (prev - closeQ closes (m - 3)) (closeQ closes (m - 3)) 0 then -15 else 0)
  if vol_in_band closes then pyInt ((s1 : ℚ) * (12/10))
  else if vol_high closes then pyInt ((s1 : ℚ) * (8/10))
  else s1

/-- `BacktestEngine._generate_scalping_signal`, lines 544-643, on the
close prefix up to the current row with the precomputed RSI and MA values
of that row.  An empty prefix raises on `iloc[-1]` and a prefix of 2 to 4
rows raises `NameError` on the debug-log f-string (line 619, which reads
`price_change` outside the block that assigns it); both are caught and
yield hold. -/
def generate_scalping_signal (closes : List ℚ) (rsi ma : Option ℚ)
    (entry_threshold : ℚ) : Signal :=
  let m := closes.length
  if m = 0 then ⟨.hold, 0, none, none⟩
  else if 2 ≤ m ∧ m < 5 then ⟨.hold, 0, none, none⟩
  else
    let cur := closeQ closes (m - 1)
    let s1 : ℤ := if 5 ≤ m then scalping_base_score closes else 0
    let s2 : ℤ := s1 +
      (match rsi with
       | some r => if r < 40 then 20 else if 60 < r then -20 else 0
       | none => 0)
    let score : ℤ := s2 +
      (match ma with
       | some mv => if mv < cur then 10 else if cur < mv then -10 else 0
       | none => 0)
    if entry_threshold ≤ (score : ℚ) then
      ⟨.buy, score, some (cur * (9995/10000)), some (cur * (10030/10000))⟩
    else if (score : ℚ) ≤ -entry_threshold then
      ⟨.sell, |score|, some (cur * (10005/10000)), some (cur * (9970/10000))⟩
    else ⟨.hold, 0, none, none⟩

/-- `BacktestEngine._calculate_position_size`, lines 645-661: risk-based
size with a 0.01-lot floor in both branches. -/
def calculate_position_size (balance entry_price stop_loss risk_per_trade : ℚ) : ℚ :=
  if 0 < |entry_price - stop_loss| then
    max (1/100) (balance * risk_per_trade / |entry_price - stop_loss|)
  else 1/100

/-- Realized or unrealized PnL of one position at a given exit price
(lines 179-182 and 752-755). -/
def position_profit (pos : Position) (price : ℚ) : ℚ :=
  match pos.side with
  | .buy => (price - pos.entry_price) * pos.quantity
  | .sell => (pos.entry_price - price) * pos.quantity

/-- `BacktestEngine._calculate_unrealized_pnl`, lines 744-763. -/
def calculate_unrealized_pnl (positions : List Position) (close : ℚ) : ℚ :=
  (positions.map (fun pos => position_profit pos close)).sum

/-- The running state of the `_execute_backtest` main loop. -/
structure BTState where
  balance : ℚ
  positions : List Position
  trades : List Trade
  equity_curve : List EquityPoint
deriving DecidableEq, Repr

/-- The close parameters a scalping run passes to
`_should_close_position`. -/
def scalp_close_params (params : ScalpParams) : CloseParams :=
  { strategy_type := .scalping, max_hold_hours := params.max_hold_hours }

/-- The entry phase of one `_execute_backtest` loop iteration (lines
140-165): below the position cap, a buy/sell scalping signal opens one
position sized by `_calculate_position_size` (whose floor makes the
`position_size > 0` gate always pass). -/
def entry_phase (params : ScalpParams) (bars : List Bar) (closes : List ℚ)
    (risk_per_trade : ℚ) (max_positions : ℕ) (st : BTState) (i : ℕ) : BTState :=
  let bar := bars.getD i default
  if st.positions.length < max_positions then
    let sig := generate_scalping_signal (closes.take (i + 1))
      (rsiAt closes params.rsi_period i) (maAt closes params.ma_period i)
      params.entry_threshold
    match sig.action with
    | .hold => st
    | .buy =>
      let size := calculate_position_size st.balance bar.close
        (sig.stop_loss.getD (bar.close * (98/100))) risk_per_trade
      if 0 < size then
        { st with positions := st.positions ++
            [⟨.buy, bar.ts, bar.close, size, sig.stop_loss, sig.take_profit⟩] }
      else st
    | .sell =>
      let size := calculate_position_size st.balance bar.close
        (sig.stop_loss.getD (bar.close * (98/100))) risk_per_trade
      if 0 < size then
        { st with positions := st.positions ++
            [⟨.sell, bar.ts, bar.close, size, sig.stop_loss, sig.take_profit⟩] }
      else st
  else st

/-- The close scan of one loop iteration (lines 167-202): each open
position is judged by `_should_close_position` at the current bar. -/
def close_decisions (params : ScalpParams) (bars : List Bar) (st1 : BTState)
    (i : ℕ) : List (Position × (Option CloseReason × Position)) :=
  st1.positions.map fun pos =>
    (pos, should_close_position pos (bars.getD i default)
      (bars.getD i default).ts (trendAt bars i) (scalp_close_params params))

/-- The trades the close scan appends, in position order (lines 175-198):
each fills at the current bar's close. -/
def closed_trades (params : ScalpParams) (bars : List Bar) (st1 : BTState)
    (i : ℕ) : List Trade :=
  (close_decisions params bars st1 i).filterMap fun d =>
    match d.2.1 with
    | some reason => some (⟨d.1.side, d.1.entry_time, (bars.getD i default).ts,
        d.1.entry_price, (bars.getD i default).close, d.1.quantity,
        position_profit d.1 (bars.getD i default).close, reason⟩ : Trade)
    | none => none

/-- The positions that survive the close scan (lines 200-202), carrying
any in-place mutation `_should_close_position` performed. -/
def kept_positions (params : ScalpParams) (bars : List Bar) (st1 : BTState)
    (i : ℕ) : List Position :=
  (close_decisions params bars st1 i).filterMap fun d =>
    match d.2.1 with
    | some _ => none
    | none => some d.2.2

/-- One iteration of the `_execute_backtest` loop (lines 135-211) for the
scalping strategy: the entry phase, then the close scan over all open
positions (appending one trade and one balance update per close), then
one equity point. -/
def backtest_step (params : ScalpParams) (bars : List Bar) (closes : List ℚ)
    (risk_per_trade : ℚ) (max_positions : ℕ) (st : BTState) (i : ℕ) : BTState :=
  let bar := bars.getD i default
  let st1 := entry_phase params bars closes risk_per_trade max_positions st i
  let ct := closed_trades params bars st1 i
  let kept := kept_positions params bars st1 i
  let newBalance := st1.balance + (ct.map Trade.profit_loss).sum
  let unreal := calculate_unrealized_pnl kept bar.close
  { balance := newBalance,
    positions := kept,
    trades := st1.trades ++ ct,
    equity_curve := st1.equity_curve ++
      [⟨bar.ts, newBalance, unreal, newBalance + unreal⟩] }

/-- The peak-tracking drawdown loop of `_calculate_max_drawdown` (lines
845-869); `none` marks the `ZeroDivisionError` at a zero peak, which the
function's own handler converts to an overall result of 0. -/
def max_drawdown_go (peak maxdd : ℚ) : List EquityPoint → Option ℚ
  | [] => some (maxdd * 100)
  | e :: rest =>
    let peak1 := if peak < e.total_equity then e.total_equity else peak
    if peak1 = 0 then none
    else max_drawdown_go peak1 (max maxdd ((peak1 - e.total_equity) / peak1)) rest

/-- `BacktestEngine._calculate_max_drawdown`, lines 845-869. -/
def calculate_max_drawdown (equity_curve : List EquityPoint)
    (initial_balance : ℚ) : ℚ :=
  (max_drawdown_go initial_balance 0 equity_curve).getD 0

/-- The analysis dictionary of `_analyze_results`.  Keys a branch leaves
absent are `none`; the reported `profit_factor` is also `none` when Python
returns literal `None` (no losing trades) — every consumer reads the key
through `.get`, which collapses the two.  The `sharpe_ratio` key is
omitted: no claim touches it and its annualization factor `sqrt 252` is
irrational.  `is_error` marks the exception dictionary of lines 833-843
(reached exactly when `initial_balance = 0`, where `return_percentage`
divides by it; `_calculate_max_drawdown` catches its own zero division
internally). -/
structure AnalyzeResult where
  is_error : Bool
  total_trades : ℕ
  winning_trades : ℕ
  losing_trades : Option ℕ
  total_profit : ℚ
  win_rate : ℚ
  avg_profit : Option ℚ
  avg_loss : Option ℚ
  profit_factor : Option ℚ
  max_drawdown : ℚ
  initial_balance : Option ℚ
  final_balance : Option ℚ
  return_percentage : Option ℚ
  trades : List Trade
deriving DecidableEq, Repr

/-- `BacktestEngine._analyze_results`, lines 765-843. -/
def analyze_results (trades : List Trade) (equity_curve : List EquityPoint)
    (initial_balance : ℚ) : AnalyzeResult :=
  if trades = [] then
    ⟨false, 0, 0, none, 0, 0, none, none, none, 0, none, none, none, []⟩
  else if initial_balance = 0 then
    ⟨true, 0, 0, none, 0, 0, none, none, none, 0, none, none, none, trades⟩
  else
    let total_trades := trades.length
    let winning := (trades.filter (fun t => 0 < t.profit_loss)).length
    let total_profit := (trades.map Trade.profit_loss).sum
    let profits := (trades.filter (fun t => 0 < t.profit_loss)).map Trade.profit_loss
    let losses := (trades.filter (fun t => t.profit_loss < 0)).map Trade.profit_loss
    ⟨false,
     total_trades,
     winning,
     some (total_trades - winning),
     pyRound2 total_profit,
     pyRound 4 ((winning : ℚ) / (total_trades : ℚ)),
     some (pyRound2 (if profits = [] then 0 else profits.sum / (profits.length : ℚ))),
     some (pyRound2 (if losses = [] then 0 else losses.sum / (losses.length : ℚ))),
     (if losses = [] then none
      else some (pyRound2 |profits.sum / losses.sum|)),
     pyRound2 (calculate_max_drawdown equity_curve initial_balance),
     some (pyRound2 initial_balance),
     some (pyRound2 (initial_balance + total_profit)),
     some (pyRound2 (total_profit / initial_balance * 100)),
     trades⟩

/-- `BacktestEngine._execute_backtest`, lines 110-239, with the scalping
strategy (the default `strategy_type`): indicator columns are functions of
the full close series (rolling windows are causal), the loop starts at
`min(10, n-5)`, and remaining positions are force-closed at the final
close with reason `backtest_end`. -/
def execute_backtest (bars : List Bar) (params : ScalpParams)
    (initial_balance risk_per_trade : ℚ) (max_positions : ℕ) : AnalyzeResult :=
  let closes := bars.map Bar.close
  let n := bars.length
  let start := min 10 (n - 5)
  let stF := (List.range' start (n - start)).foldl
    (backtest_step params bars closes risk_per_trade max_positions)
    ⟨initial_balance, [], [], []⟩
  let lastBar := bars.getD (n - 1) default
  let endTrades := stF.positions.map fun pos =>
    (⟨pos.side, pos.entry_time, lastBar.ts, pos.entry_price, lastBar.close,
      pos.quantity, position_profit pos lastBar.close, .backtest_end⟩ : Trade)
  analyze_results (stF.trades ++ endTrades) stF.equity_curve initial_balance

/-- `BacktestEngine.run_backtest`, lines 23-56: fewer than 20 rows raise
(`none`); otherwise the executed backtest's analysis. -/
def run_backtest (bars : List Bar) (params : ScalpParams)
    (initial_balance risk_per_trade : ℚ) (max_positions : ℕ) :
    Option AnalyzeResult :=
  if bars.length < 20 then none
  else some (execute_backtest bars params initial_balance risk_per_trade max_positions)

/-- A completely flat price series: `n` bars whose open, high, low and
close all equal the constant `p`, with hourly timestamps. -/
def flat_series (n : ℕ) (p : ℚ) : List Bar :=
  (List.range n).map fun i : ℕ => ⟨(i : ℚ), p, p, p, p, 0⟩

/-- Concrete swing position for the close-order analysis: stop 100, target
200, opened at hour 0. -/
def c2_pos : Position := ⟨.buy, 0, 100, 1, some 100, some 200⟩

/-- Concrete bar: close 150, far past the holding limit. -/
def c2_bar : Bar := ⟨1000, 150, 150, 150, 150, 0⟩

/-- Swing-strategy parameters with all defaults. -/
def c2_params : CloseParams := { strategy_type := .swing }

/-- Concrete trade pair: one win of 3, one loss of 7. -/
def c3_trades : List Trade :=
  [⟨.buy, 0, 1, 100, 103, 1, 3, .take_profit⟩,
   ⟨.buy, 0, 1, 100, 93, 1, -7, .stop_loss⟩]

/-- A concrete 20-bar series: flat at 100 for ten bars, then a 0.2% jump
to 501/5 that fires a buy at bar 10; the position exceeds the one-hour
holding limit and closes at bar 12's close. -/
def c9_bars : List Bar :=
  (List.range 20).map fun i : ℕ =>
    if i < 10 then ⟨(i : ℚ), 100, 100, 100, 100, 0⟩
    else ⟨(i : ℚ), 501/5, 501/5, 501/5, 501/5, 0⟩

/-- A long position whose stop sits above the example bar's close. -/
def c9_pos : Position := ⟨.buy, 0, 100, 1, some 95, some 110⟩

/-- A bar gapping well below that stop. -/
def c9_gap_bar : Bar := ⟨0, 90, 90, 90, 90, 0⟩

end BacktestEngine

namespace OptimizationEngine

/-- The objective-function selector strings accepted by
`OptimizationEngine._evaluate_individual`. -/
inductive Objective
  | sharpe_ratio
  | total_profit
  | win_rate
  | profit_factor
  | max_drawdown
deriving DecidableEq, Repr

/-- The metrics of one finished backtest that `_evaluate_individual` reads
from the result dictionary.  `sharpe_ratio` and `profit_factor` may be
`None` in the source (`Option.none` here). -/
structure BacktestMetrics where
  sharpe_ratio : Option ℚ
  total_profit : ℚ
  win_rate : ℚ
  profit_factor : Option ℚ
  max_drawdown : ℚ
deriving DecidableEq, Repr

/-- One candidate evaluation: either the backtest finished with metrics, or
it raised an exception (the `except` branch of `_evaluate_individual`). -/
inductive EvalOutcome
  | success (m : BacktestMetrics)
  | failure
deriving DecidableEq, Repr

/-- `OptimizationEngine._evaluate_individual`, lines 513-552: map the chosen
objective to a score (`None` collapsed to `0` by the source's `or 0`; the
drawdown negated); an exception yields `float('-inf')`. -/
def evaluate_individual (obj : Objective) (o : EvalOutcome) : FScore :=
  match o with
  | .failure => .negInf
  | .success m =>
    match obj with
    | .sharpe_ratio => .val ((m.sharpe_ratio).getD 0)
    | .total_profit => .val m.total_profit
    | .win_rate => .val m.win_rate
    | .profit_factor => .val ((m.profit_factor).getD 0)
    | .max_drawdown => .val (-m.max_drawdown)

/-- `OptimizationEngine._is_maximization_objective`, lines 554-559. -/
def is_maximization_objective (obj : Objective) : Bool :=
  match obj with
  | .sharpe_ratio => true
  | .total_profit => true
  | .win_rate => true
  | .profit_factor => true
  | .max_drawdown => false

/-- `OptimizationEngine._is_better_score`, lines 561-568. -/
def is_better_score (new_score current_best : FScore) (obj : Objective) : Bool :=
  if is_maximization_objective obj then FScore.lt current_best new_score
  else FScore.lt new_score current_best

/-- The initial best score of every search strategy (genetic line 87, grid
line 170, random line 225). -/
def initial_best (obj : Objective) : FScore :=
  if is_maximization_objective obj then .negInf else .posInf

/-- The best-candidate update loop shared verbatim by the genetic (lines
94-103), grid (lines 172-181) and random (lines 227-239) strategies:
evaluate each candidate in turn and keep the score that `_is_better_score`
prefers.  Candidates are identified by a numeric id standing for their
parameter dictionary. -/
def select_best (obj : Objective) (cands : List (ℕ × EvalOutcome)) :
    Option ℕ × FScore :=
  cands.foldl
    (fun best c =>
      let score := evaluate_individual obj c.2
      if is_better_score score best.2 obj then (some c.1, score) else best)
    (none, initial_best obj)

/-- A successfully evaluated candidate whose measured max drawdown is 10. -/
def metricsDrawdown10 : BacktestMetrics :=
  { sharpe_ratio := some 1, total_profit := 500, win_rate := 1/2,
    profit_factor := some 2, max_drawdown := 10 }

/-- A successfully evaluated candidate whose measured max drawdown is 50. -/
def metricsDrawdown50 : BacktestMetrics :=
  { sharpe_ratio := some 1, total_profit := 500, win_rate := 1/2,
    profit_factor := some 2, max_drawdown := 50 }

end OptimizationEngine

/-- Generic preservation of an invariant along a left fold. -/
theorem foldl_preserve {α β : Type} (P : β → Prop) (f : β → α → β)
    (hf : ∀ b a, P b → P (f b a)) :
    ∀ (l : List α) (b : β), P b → P (l.foldl f b) := by
  intro l
  induction l with
  | nil => intro b hb; exact hb
  | cons a t ih => intro b hb; exact ih (f b a) (hf b a hb)

namespace TechnicalAnalysis

/-- Under strictly increasing highs, no interior index passes the
strict-maximum window scan: the bar to its right is higher. -/
theorem swing_high_points_nil (bars : List Bar) (w : ℕ) (hw : 1 ≤ w)
    (hhi : ∀ i ∈ List.range (bars.length - 1),
      highAt bars i < highAt bars (i + 1)) :
    swing_high_points bars w = [] := by
  refine List.filterMap_eq_nil_iff.mpr ?_
  intro i hi
  obtain ⟨k, hk, rfl⟩ := List.mem_range'.mp hi
  rw [if_neg]
  intro hall
  have hmem : w + 1 * k + 1 ∈ List.range' (w + 1 * k - w) (2 * w + 1) :=
    List.mem_range'.mpr ⟨w + 1, by omega, by omega⟩
  have hj := List.all_eq_true.mp hall _ hmem
  simp only [Bool.or_eq_true, beq_iff_eq, decide_eq_true_eq] at hj
  rcases hj with h | h
  · omega
  · have hmono := hhi (w + 1 * k) (List.mem_range.mpr (by omega))
    exact absurd hmono (not_lt.mpr (le_of_lt h))

/-- Under strictly increasing lows, no interior index passes the
strict-minimum window scan: the bar to its left is lower. -/
theorem swing_low_points_nil (bars : List Bar) (w : ℕ) (hw : 1 ≤ w)
    (hlo : ∀ i ∈ List.range (bars.length - 1),
      lowAt bars i < lowAt bars (i + 1)) :
    swing_low_points bars w = [] := by
  refine List.filterMap_eq_nil_iff.mpr ?_
  intro i hi
  obtain ⟨k, hk, rfl⟩ := List.mem_range'.mp hi
  rw [if_neg]
  intro hall
  have hmem : w + 1 * k - 1 ∈ List.range' (w + 1 * k - w) (2 * w + 1) :=
    List.mem_range'.mpr ⟨w - 1, by omega, by omega⟩
  have hj := List.all_eq_true.mp hall _ hmem
  simp only [Bool.or_eq_true, beq_iff_eq, decide_eq_true_eq] at hj
  rcases hj with h | h
  · omega
  · have heq : (w + 1 * k - 1) + 1 = w + 1 * k := by omega
    have hmono := hlo (w + 1 * k - 1) (List.mem_range.mpr (by omega))
    rw [heq] at hmono
    exact absurd hmono (not_lt.mpr (le_of_lt h))

end TechnicalAnalysis

open TechnicalAnalysis in
/-- C4 (amended).  For a price series whose bar highs and lows are both
strictly monotonically increasing, and any window `w ≥ 1`, the swing-point
detector returns no swing points at all: interior indices are defeated by a
strictly higher neighbour on each side, and boundary indices (the series
start included) are never candidates.  In particular there is no swing low
at the series start. -/
theorem C4_monotone_series_yields_no_swing_points
    (bars : List Bar) (w : ℕ) (d : ℚ) (hw : 1 ≤ w)
    (hhi : ∀ i ∈ List.range (bars.length - 1),
      highAt bars i < highAt bars (i + 1))
    (hlo : ∀ i ∈ List.range (bars.length - 1),
      lowAt bars i < lowAt bars (i + 1)) :
    detect_swing_points bars w d = [] := by
  unfold detect_swing_points
  split
  · rfl
  · rw [swing_high_points_nil bars w hw hhi, swing_low_points_nil bars w hw hlo]
    rfl

open TechnicalAnalysis in
/-- C4, witness: the general theorem applied to the concrete strictly
increasing 12-bar series with window 5 and minimum distance 1/1000. -/
theorem C4_monotone_series_yields_no_swing_points_witness :
    detect_swing_points incBars12 5 (1/1000) = [] :=
  C4_monotone_series_yields_no_swing_points incBars12 5 (1/1000)
    (by norm_num) (by decide) (by decide)

open TechnicalAnalysis in
/-- C4, counterexample to the claim as stated: on the strictly increasing
12-bar series with window `5 ≤ 12/2 - 1`, the detector returns the empty
list — zero swing lows, not exactly one at the series start. -/
theorem C4_counterexample_no_swing_low_at_start :
    detect_swing_points incBars12 5 (1/1000) = [] ∧
    ((detect_swing_points incBars12 5 (1/1000)).filter
      (fun p => p.point_type = PointType.low)).length ≠ 1 := by
  constructor
  · decide
  · decide

namespace TechnicalAnalysis

/-- Pushing a freshly emitted point whose kind differs from the current
head, while flipping the direction so that the pushed kind is the one now
pending, keeps the invariant. -/
theorem zz_inv_cons (d' : ZigZagDir) (e : ℚ) (j : ℕ) (pt : ZigZagPoint)
    (pts : List ZigZagPoint)
    (hchain : List.Chain' (fun p q => p.kind ≠ q.kind) pts)
    (hhead : ∀ p, pts.head? = some p → pt.kind ≠ p.kind)
    (hpend : pt.kind = pending_kind d') :
    zz_inv ⟨d', e, j, pt :: pts⟩ := by
  refine ⟨List.chain'_cons'.mpr ⟨fun y hy => hhead y hy, hchain⟩, ?_⟩
  intro p hp
  simp only [List.head?_cons, Option.some.injEq] at hp
  rw [← hp]
  exact hpend

/-- Each loop iteration of `ZigZagIndicator.calculate` preserves the
alternation invariant. -/
theorem zigzag_step_inv (dev : ℚ) (bars : List Bar) (st : ZigZagState)
    (i : ℕ) (h : zz_inv st) : zz_inv (zigzag_step dev bars st i) := by
  obtain ⟨dir, ex, exi, pts⟩ := st
  obtain ⟨hchain, hhead⟩ := h
  cases dir with
  | up =>
    simp only [zigzag_step]
    by_cases hc1 : ex < highAt bars i <;>
      simp only [hc1, if_true, if_false, ite_true, ite_false] <;>
      split
    · exact zz_inv_cons _ _ _ _ pts hchain
        (fun p hp => by rw [hhead p hp]; simp [pending_kind]) rfl
    · exact ⟨hchain, fun p hp => hhead p hp⟩
    · exact zz_inv_cons _ _ _ _ pts hchain
        (fun p hp => by rw [hhead p hp]; simp [pending_kind]) rfl
    · exact ⟨hchain, fun p hp => hhead p hp⟩
  | down =>
    simp only [zigzag_step]
    by_cases hc1 : lowAt bars i < ex <;>
      simp only [hc1, if_true, if_false, ite_true, ite_false] <;>
      split
    · exact zz_inv_cons _ _ _ _ pts hchain
        (fun p hp => by rw [hhead p hp]; simp [pending_kind]) rfl
    · exact ⟨hchain, fun p hp => hhead p hp⟩
    · exact zz_inv_cons _ _ _ _ pts hchain
        (fun p hp => by rw [hhead p hp]; simp [pending_kind]) rfl
    · exact ⟨hchain, fun p hp => hhead p hp⟩


end TechnicalAnalysis

open TechnicalAnalysis in
/-- C8.  For every input bar sequence and every deviation threshold, the
ZigZag output strictly alternates kinds: no two consecutive emitted points
(the final flushed point included) are both peaks or both troughs. -/
theorem C8_zigzag_output_alternates (bars : List Bar) (dev : ℚ) :
    List.Chain' (fun p q => p.kind ≠ q.kind) (zigzag_calculate bars dev) := by
  have hinv : zz_inv (zigzag_final_state bars dev) :=
    foldl_preserve zz_inv (zigzag_step dev bars)
      (fun b a hb => zigzag_step_inv dev bars b a hb) _ _
      ⟨List.chain'_nil, fun p hp => by simp at hp⟩
  obtain ⟨hchain, hhead⟩ := hinv
  unfold zigzag_calculate
  split
  · simp
  -- the flushed point's kind differs from the pending kind, so the
  -- extended reversed list still alternates; reversing keeps alternation
  · dsimp only
    split
    · rename_i hnil
      rw [hnil]
      simp
    · refine List.chain'_reverse.mpr ?_
      refine List.Chain'.imp (fun a b hab => Ne.symm hab) ?_
      refine List.chain'_cons'.mpr ⟨?_, hchain⟩
      intro y hy
      have hk := hhead y hy
      cases hdir : (zigzag_final_state bars dev).dir <;> rw [hdir] at hk <;>
        simp [flush_kind, pending_kind, hk]

namespace ElliottWave

open TechnicalAnalysis

/-- Bounds for the confidence formula over any ratio row with positive
bounds and the ideal inside the range. -/
theorem ratio_confidence_core_bounds (r mn mx idl : ℚ) (hmn : 0 < mn)
    (h2 : mn ≤ idl) (h3 : idl ≤ mx) (h4 : mn < mx) :
    3/10 ≤ ratio_confidence_core r mn mx idl ∧
      ratio_confidence_core r mn mx idl ≤ 1 := by
  have hmx : 0 < mx := lt_of_lt_of_le hmn (le_of_lt h4)
  unfold ratio_confidence_core
  split_ifs with h5 h6
  · obtain ⟨ha, hb⟩ := h5
    have hdenom : 0 < mx - mn := by linarith
    have habs : |r - idl| ≤ mx - mn := by
      rw [abs_le]
      constructor <;> linarith
    have habs0 : 0 ≤ |r - idl| := abs_nonneg _
    have hdiv1 : |r - idl| / (mx - mn) ≤ 1 := by
      rw [div_le_one hdenom]
      exact habs
    have hdiv0 : 0 ≤ |r - idl| / (mx - mn) := div_nonneg habs0 (le_of_lt hdenom)
    constructor <;> nlinarith [hdiv1, hdiv0]
  · have hd : 0 < (mn - r) / mn := div_pos (by linarith) hmn
    constructor
    · exact le_trans (by norm_num) (le_max_left _ _)
    · rw [max_le_iff]
      constructor <;> nlinarith [hd]
  · have hr : mx < r := by
      rcases not_and_or.mp h5 with h | h
      · exact absurd (le_of_not_lt h6) h
      · exact lt_of_not_le h
    have hd : 0 < (r - mx) / mx := div_pos (by linarith) hmx
    constructor
    · exact le_trans (by norm_num) (le_max_left _ _)
    · rw [max_le_iff]
      constructor <;> nlinarith [hd]

/-- The confidence bounds instantiated at each of the seven table rows. -/
theorem calculate_ratio_confidence_bounds (r : ℚ) (role : WaveRole) :
    3/10 ≤ calculate_ratio_confidence r role ∧
      calculate_ratio_confidence r role ≤ 1 := by
  cases role <;>
    exact ratio_confidence_core_bounds r _ _ _
      (by norm_num [ideal_ratios]) (by norm_num [ideal_ratios])
      (by norm_num [ideal_ratios]) (by norm_num [ideal_ratios])

/-- Every wave of an accepted upward impulse window has confidence in
`[0.3, 1]` (wave 1 is the constant 0.8; waves 2-5 come from the ratio
confidence function). -/
theorem check_upward_impulse_confidence (points : List ZigZagPoint)
    (ws : List WavePattern) (h : check_upward_impulse points = some ws) :
    ∀ p ∈ ws, 3/10 ≤ p.confidence ∧ p.confidence ≤ 1 := by
  intro p hp
  simp only [check_upward_impulse] at h
  split_ifs at h with h1 h2 h3 h4 h5
  rw [Option.some.injEq] at h
  rw [← h] at hp
  simp only [List.mem_cons, List.not_mem_nil, or_false] at hp
  rcases hp with hp | hp | hp | hp | hp <;> rw [hp] <;>
    first
      | exact calculate_ratio_confidence_bounds _ _
      | (constructor <;> norm_num)

/-- The same bounds for accepted downward impulse windows. -/
theorem check_downward_impulse_confidence (points : List ZigZagPoint)
    (ws : List WavePattern) (h : check_downward_impulse points = some ws) :
    ∀ p ∈ ws, 3/10 ≤ p.confidence ∧ p.confidence ≤ 1 := by
  intro p hp
  simp only [check_downward_impulse] at h
  split_ifs at h with h1 h2 h3 h4 h5
  rw [Option.some.injEq] at h
  rw [← h] at hp
  simp only [List.mem_cons, List.not_mem_nil, or_false] at hp
  rcases hp with hp | hp | hp | hp | hp <;> rw [hp] <;>
    first
      | exact calculate_ratio_confidence_bounds _ _
      | (constructor <;> norm_num)

/-- The same bounds for accepted corrective windows (wave A is the
constant 0.7). -/
theorem check_corrective_pattern_confidence (points : List ZigZagPoint)
    (dir : ZigZagDir) (ws : List WavePattern)
    (h : check_corrective_pattern points dir = some ws) :
    ∀ p ∈ ws, 3/10 ≤ p.confidence ∧ p.confidence ≤ 1 := by
  intro p hp
  simp only [check_corrective_pattern] at h
  split_ifs at h with h1 h2
  rw [Option.some.injEq] at h
  rw [← h] at hp
  simp only [List.mem_cons, List.not_mem_nil, or_false] at hp
  rcases hp with hp | hp | hp <;> rw [hp] <;>
    first
      | exact calculate_ratio_confidence_bounds _ _
      | (constructor <;> norm_num)

/-- Every pattern emitted by the impulse detector satisfies the confidence
bounds. -/
theorem detect_impulse_waves_confidence (zz : List ZigZagPoint) :
    ∀ p ∈ detect_impulse_waves zz, 3/10 ≤ p.confidence ∧ p.confidence ≤ 1 := by
  intro p hp
  simp only [detect_impulse_waves] at hp
  split_ifs at hp with h8
  · exact absurd hp (by simp)
  · obtain ⟨i, hi, hmem⟩ := List.mem_flatMap.mp hp
    cases hk : (zz.getD i default).kind <;> rw [hk] at hmem
    · cases hc : check_downward_impulse ((zz.drop i).take 8) with
      | none => rw [hc] at hmem; exact absurd hmem (by simp)
      | some ws =>
        rw [hc] at hmem
        exact check_downward_impulse_confidence _ _ hc p hmem
    · cases hc : check_upward_impulse ((zz.drop i).take 8) with
      | none => rw [hc] at hmem; exact absurd hmem (by simp)
      | some ws =>
        rw [hc] at hmem
        exact check_upward_impulse_confidence _ _ hc p hmem

/-- Every pattern emitted by the corrective detector satisfies the
confidence bounds. -/
theorem detect_corrective_waves_confidence (zz : List ZigZagPoint) :
    ∀ p ∈ detect_corrective_waves zz,
      3/10 ≤ p.confidence ∧ p.confidence ≤ 1 := by
  intro p hp
  simp only [detect_corrective_waves] at hp
  split_ifs at hp with h4
  · exact absurd hp (by simp)
  · obtain ⟨i, hi, hmem⟩ := List.mem_flatMap.mp hp
    cases hk : (zz.getD i default).kind <;> rw [hk] at hmem
    · cases hc : check_corrective_pattern ((zz.drop i).take 4) .down with
      | none => rw [hc] at hmem; exact absurd hmem (by simp)
      | some ws =>
        rw [hc] at hmem
        exact check_corrective_pattern_confidence _ _ _ hc p hmem
    · cases hc : check_corrective_pattern ((zz.drop i).take 4) .up with
      | none => rw [hc] at hmem; exact absurd hmem (by simp)
      | some ws =>
        rw [hc] at hmem
        exact check_corrective_pattern_confidence _ _ _ hc p hmem

end ElliottWave

open TechnicalAnalysis ElliottWave in
/-- C10.  The Fibonacci ratio-confidence function returns a value in
`[0.3, 1]` for every ratio (however far outside the canonical range) and
every wave role; consequently every wave pattern emitted by
`detect_elliott_waves` carries a confidence of at least 0.3. -/
theorem C10_confidence_always_bounded :
    (∀ (r : ℚ) (role : WaveRole),
      3/10 ≤ calculate_ratio_confidence r role ∧
        calculate_ratio_confidence r role ≤ 1) ∧
    (∀ zz : List ZigZagPoint, ∀ p ∈ detect_elliott_waves zz,
      3/10 ≤ p.confidence) := by
  refine ⟨fun r role => calculate_ratio_confidence_bounds r role, ?_⟩
  intro zz p hp
  simp only [detect_elliott_waves] at hp
  split_ifs at hp with h5
  · exact absurd hp (by simp)
  · rcases List.mem_append.mp hp with hmem | hmem
    · exact (detect_impulse_waves_confidence zz p hmem).1
    · exact (detect_corrective_waves_confidence zz p hmem).1

open TechnicalAnalysis ElliottWave in
/-- C10, witness: the bound applied to the far-out-of-range ratio 50 for
wave role 2, and to the concrete wave A pattern the detector emits on
`zz5`. -/
theorem C10_confidence_always_bounded_witness :
    3/10 ≤ calculate_ratio_confidence 50 .wave2 ∧
      3/10 ≤ (⟨.wA, 0, 1, 100, 200, 7/10, []⟩ : WavePattern).confidence :=
  ⟨(C10_confidence_always_bounded.1 50 .wave2).1,
   C10_confidence_always_bounded.2 zz5 _ (by decide)⟩

namespace ElliottWave

open TechnicalAnalysis

/-- The element Python's keyed `max` picks is a member of the list. -/
theorem latest_pattern_mem (h : WavePattern) (t : List WavePattern) :
    latest_pattern h t ∈ h :: t := by
  induction t generalizing h with
  | nil => simp [latest_pattern]
  | cons x tail ih =>
    simp only [latest_pattern, List.foldl_cons] at *
    by_cases hc : h.end_index < x.end_index
    · rw [if_pos hc]
      exact List.mem_cons_of_mem h (ih x)
    · rw [if_neg hc]
      rcases List.mem_cons.mp (ih h) with h1 | h1
      · rw [h1]
        exact List.mem_cons_self _ _
      · exact List.mem_cons_of_mem h (List.mem_cons_of_mem x h1)

/-- The element Python's keyed `max` picks has the largest key. -/
theorem latest_pattern_ge (h : WavePattern) (t : List WavePattern) :
    ∀ p ∈ h :: t, p.end_index ≤ (latest_pattern h t).end_index := by
  induction t generalizing h with
  | nil =>
    intro p hp
    simp only [List.mem_singleton] at hp
    rw [hp]
    simp [latest_pattern]
  | cons x tail ih =>
    intro p hp
    simp only [latest_pattern, List.foldl_cons] at *
    have hble : h.end_index ≤ (if h.end_index < x.end_index then x else h).end_index ∧
        x.end_index ≤ (if h.end_index < x.end_index then x else h).end_index := by
      by_cases hc : h.end_index < x.end_index
      · rw [if_pos hc]
        exact ⟨le_of_lt hc, le_refl _⟩
      · rw [if_neg hc]
        exact ⟨le_refl _, le_of_not_lt hc⟩
    have hrec := ih (if h.end_index < x.end_index then x else h)
    have hself := hrec _ (List.mem_cons_self _ _)
    rcases List.mem_cons.mp hp with h1 | h1
    · rw [h1]
      exact le_trans hble.1 hself
    · rcases List.mem_cons.mp h1 with h2 | h2
      · rw [h2]
        exact le_trans hble.2 hself
      · exact hrec p (List.mem_cons_of_mem _ h2)

end ElliottWave

open ElliottWave in
/-- C7.  On every non-empty pattern list the composite scorer's
current-position query (`get_current_wave_position` feeding
`_calculate_elliott_wave_score`) selects a pattern with the greatest end
index, maps its label through the base table (3→40, 1→30, 5→20, C→15,
A→10, 2/4/B→5), scales that base by the selected pattern's confidence and
caps the result at 40. -/
theorem C7_current_position_query (wps : List WavePattern) (hne : wps ≠ []) :
    ∃ sel ∈ wps,
      selected_pattern wps = some sel ∧
      (∀ p ∈ wps, p.end_index ≤ sel.end_index) ∧
      calculate_elliott_wave_score (get_current_wave_position wps)
        = min (base_scores sel.wave_type * sel.confidence) 40 ∧
      calculate_elliott_wave_score (get_current_wave_position wps) ≤ 40 := by
  match wps, hne with
  | h :: t, _ =>
    refine ⟨latest_pattern h t, latest_pattern_mem h t, rfl,
      latest_pattern_ge h t, rfl, ?_⟩
    exact min_le_right _ _

open ElliottWave in
/-- C7, witness: the query applied to the two concrete patterns; the wave-3
pattern ends later, so the score is `min (40 * 0.9) 40 = 36`. -/
theorem C7_current_position_query_witness :
    (∃ sel ∈ [patA, pat3],
      selected_pattern [patA, pat3] = some sel ∧
      (∀ p ∈ [patA, pat3], p.end_index ≤ sel.end_index) ∧
      calculate_elliott_wave_score (get_current_wave_position [patA, pat3])
        = min (base_scores sel.wave_type * sel.confidence) 40 ∧
      calculate_elliott_wave_score (get_current_wave_position [patA, pat3]) ≤ 40) ∧
    calculate_elliott_wave_score (get_current_wave_position [patA, pat3]) = 36 :=
  ⟨C7_current_position_query [patA, pat3] (by simp), by decide⟩

open OptimizationEngine in
/-- C1.  For the `max_drawdown` objective the candidate's score is indeed
the negation of its measured drawdown, but `_is_maximization_objective`
excludes `max_drawdown`, so `_is_better_score` then MINIMIZES that already
negated score: over the candidates with drawdowns 10 and 50 every search
strategy's update loop returns the candidate whose drawdown is 50 — the
strictly larger one — with best score `-50`.  This refutes the claim that
the returned candidate's drawdown is less than or equal to every other
evaluated candidate's. -/
theorem C1_drawdown_selection_picks_larger_drawdown :
    evaluate_individual .max_drawdown (.success metricsDrawdown10) = .val (-10) ∧
    evaluate_individual .max_drawdown (.success metricsDrawdown50) = .val (-50) ∧
    select_best .max_drawdown
      [(1, .success metricsDrawdown10), (2, .success metricsDrawdown50)]
      = (some 2, .val (-50)) ∧
    metricsDrawdown10.max_drawdown < metricsDrawdown50.max_drawdown := by
  refine ⟨rfl, rfl, ?_, by norm_num [metricsDrawdown10, metricsDrawdown50]⟩
  decide

open OptimizationEngine in
/-- C6.  A candidate whose evaluation raises is caught and assigned
`float('-inf')` (the worst score under a maximize convention), but for the
`max_drawdown` objective `_is_better_score` minimizes, so `-inf` is the
BEST possible score there: next to a successful candidate with drawdown 10
the failed candidate is selected as best.  This refutes the claim that a
failed candidate can never be chosen as the best candidate. -/
theorem C6_failed_candidate_chosen_under_drawdown :
    evaluate_individual .max_drawdown .failure = .negInf ∧
    select_best .max_drawdown
      [(1, .success metricsDrawdown10), (2, .failure)]
      = (some 2, .negInf) := by
  exact ⟨rfl, by decide⟩

open BacktestEngine in
/-- C2, counterexample to the claimed order.  At hour 1000 the swing
position breaches the holding limit and the trailing ratchet would raise
the stop from 100 to `150 * 0.995 = 597/4`.  The source checks the holding
limit BEFORE the trailing update, so it returns the position untouched;
the claimed order (trailing before holding time) returns it with the
raised stop.  The two evaluation orders therefore disagree. -/
theorem C2_counterexample_order_differs :
    should_close_position c2_pos c2_bar 1000 0 c2_params ≠
      should_close_position_claimed c2_pos c2_bar 1000 0 c2_params ∧
    should_close_position c2_pos c2_bar 1000 0 c2_params
      = (some .time_limit, c2_pos) ∧
    should_close_position_claimed c2_pos c2_bar 1000 0 c2_params
      = (some .time_limit, { c2_pos with stop_loss := some (597/4) }) := by
  refine ⟨by decide, by decide, by decide⟩

open BacktestEngine in
/-- C2 (amended).  The order `_should_close_position` actually evaluates:
a stop-loss breach closes first, then a take-profit breach, then the
max-holding-time breach — all three leaving the position untouched — and
only afterwards runs the strategy-specific trailing-stop ratchet update,
followed by the trend-reversal check; the first matching condition closes
the position. -/
theorem C2_close_condition_order (pos : Position) (bar : Bar) (now : ℚ)
    (trend : ℤ) (p : CloseParams) :
    (sl_breach pos bar.close = true →
      should_close_position pos bar now trend p = (some .stop_loss, pos)) ∧
    (sl_breach pos bar.close = false → tp_breach pos bar.close = true →
      should_close_position pos bar now trend p = (some .take_profit, pos)) ∧
    (sl_breach pos bar.close = false → tp_breach pos bar.close = false →
      max_hold_of p < now - pos.entry_time →
      should_close_position pos bar now trend p = (some .time_limit, pos)) ∧
    (sl_breach pos bar.close = false → tp_breach pos bar.close = false →
      ¬(max_hold_of p < now - pos.entry_time) →
      should_close_position pos bar now trend p =
        ((if trend_reversal_cond pos trend then some .trend_reversal else none),
         apply_trailing pos bar.close p)) := by
  refine ⟨?_, ?_, ?_, ?_⟩
  · intro h1
    simp [should_close_position, h1]
  · intro h1 h2
    simp [should_close_position, h1, h2]
  · intro h1 h2 h3
    simp [should_close_position, h1, h2, h3]
  · intro h1 h2 h3
    simp only [should_close_position, h1, h2, Bool.false_eq_true, if_false,
      if_neg h3]
    split <;> rfl

open BacktestEngine in
/-- C2, witness: the amended order theorem applied at the concrete input
of the counterexample — the holding-time breach fires with the position
untouched even though the trailing ratchet would have updated it. -/
theorem C2_close_condition_order_witness :
    should_close_position c2_pos c2_bar 1000 0 c2_params
      = (some .time_limit, c2_pos) :=
  (C2_close_condition_order c2_pos c2_bar 1000 0 c2_params).2.2.1
    (by decide) (by decide) (by norm_num [max_hold_of, c2_params, c2_pos])

/-- A non-empty list of negative rationals has a negative sum. -/
theorem list_sum_neg (l : List ℚ) (hne : l ≠ [])
    (hall : ∀ x ∈ l, x < 0) : l.sum < 0 := by
  induction l with
  | nil => exact absurd rfl hne
  | cons a t ih =>
    simp only [List.sum_cons]
    rcases eq_or_ne t [] with rfl | ht
    · simpa using hall a (by simp)
    · have hs := ih ht (fun x hx => hall x (List.mem_cons_of_mem a hx))
      have ha := hall a (by simp)
      linarith

open BacktestEngine in
/-- C3 (amended).  For every analyzed backtest with a non-zero starting
balance, the reported `profit_factor` is `None` exactly when the trade
list has no losing trades; with at least one losing trade the loss sum is
non-zero (no division by zero) and the reported value is
`|Σwins / Σlosses|` rounded to two decimal places, as Python's
`round(..., 2)` does. -/
theorem C3_profit_factor_none_iff_no_losses (trades : List Trade)
    (equity : List EquityPoint) (initial : ℚ) (h0 : initial ≠ 0) :
    ((analyze_results trades equity initial).profit_factor = none ↔
      trades.filter (fun t => t.profit_loss < 0) = []) ∧
    (trades.filter (fun t => t.profit_loss < 0) ≠ [] →
      ((trades.filter (fun t => t.profit_loss < 0)).map Trade.profit_loss).sum ≠ 0 ∧
      (analyze_results trades equity initial).profit_factor =
        some (pyRound2
          |((trades.filter (fun t => 0 < t.profit_loss)).map Trade.profit_loss).sum /
           ((trades.filter (fun t => t.profit_loss < 0)).map Trade.profit_loss).sum|)) := by
  by_cases hemp : trades = []
  · subst hemp
    simp [analyze_results]
  · have hsum : trades.filter (fun t => t.profit_loss < 0) ≠ [] →
        ((trades.filter (fun t => t.profit_loss < 0)).map Trade.profit_loss).sum < 0 := by
      intro hne
      refine list_sum_neg _ (by simpa using hne) ?_
      intro x hx
      obtain ⟨t, ht, rfl⟩ := List.mem_map.mp hx
      have := List.mem_filter.mp ht
      exact of_decide_eq_true this.2
    rw [analyze_results, if_neg hemp, if_neg h0]
    by_cases hl : trades.filter (fun t => t.profit_loss < 0) = []
    · simp [hl]
    · have hmapne : ((trades.filter (fun t => t.profit_loss < 0)).map Trade.profit_loss) ≠ [] := by
        simpa using hl
      constructor
      · simp only [if_neg hmapne]
        simp [hl]
      · intro _
        exact ⟨ne_of_lt (hsum hl), by simp only [if_neg hmapne]⟩

open BacktestEngine in
/-- C3, counterexample to the exact-ratio clause: with one win of 3 and
one loss of 7 the reported profit factor is the rounded `0.43`, not the
exact `|3 / (-7)| = 3/7`. -/
theorem C3_profit_factor_rounded_counterexample :
    (analyze_results c3_trades [] 100000).profit_factor = some (43/100) ∧
    (43 : ℚ)/100 ≠ |(3 : ℚ) / (-7)| := by
  refine ⟨by decide, by decide⟩

open BacktestEngine in
/-- C3, witness: the amended theorem applied to the concrete two-trade
list. -/
theorem C3_profit_factor_none_iff_no_losses_witness :
    ((c3_trades.filter (fun t => t.profit_loss < 0)).map Trade.profit_loss).sum ≠ 0 ∧
    (analyze_results c3_trades [] 100000).profit_factor =
      some (pyRound2
        |((c3_trades.filter (fun t => 0 < t.profit_loss)).map Trade.profit_loss).sum /
         ((c3_trades.filter (fun t => t.profit_loss < 0)).map Trade.profit_loss).sum|) :=
  (C3_profit_factor_none_iff_no_losses c3_trades [] 100000 (by norm_num)).2
    (by decide)

/-- Generic preservation of an invariant along a left fold, when the step
preserves it for every list member. -/
theorem foldl_preserve_mem {α β : Type} (P : β → Prop) (l : List α)
    (f : β → α → β) (hf : ∀ b a, a ∈ l → P b → P (f b a)) :
    ∀ b, P b → P (l.foldl f b) := by
  induction l with
  | nil => intro b hb; exact hb
  | cons a t ih =>
    intro b hb
    exact ih (fun b' a' ha' hb' => hf b' a' (List.mem_cons_of_mem a ha') hb')
      (f b a) (hf b a (List.mem_cons_self a t) hb)

namespace BacktestEngine

/-- The close column of a flat series is a constant list. -/
theorem flat_closes (n : ℕ) (p : ℚ) :
    (flat_series n p).map Bar.close = List.replicate n p := by
  refine List.eq_replicate_iff.mpr ⟨by simp [flat_series], ?_⟩
  intro b hb
  simp only [flat_series, List.map_map, List.mem_map] at hb
  obtain ⟨i, _, rfl⟩ := hb
  rfl

/-- Reading a constant close list inside its range. -/
theorem closeQ_replicate {n j : ℕ} (p : ℚ) (h : j < n) :
    closeQ (List.replicate n p) j = p := by
  simp [closeQ, List.getD, List.getElem?_replicate, h]

/-- With a zero numerator and a non-negative threshold, the guarded
quotient comparison `a/b > c` is false. -/
theorem divGT_zero (b c : ℚ) (hc : 0 ≤ c) : divGT 0 b c = false := by
  unfold divGT
  split
  · simp
  · rw [zero_div]
    exact decide_eq_false (not_lt.mpr hc)

/-- With a zero numerator and a non-positive threshold, the guarded
quotient comparison `a/b < c` is false. -/
theorem divLT_zero (b c : ℚ) (hc : c ≤ 0) : divLT 0 b c = false := by
  unfold divLT
  split
  · simp
  · rw [zero_div]
    exact decide_eq_false (not_lt.mpr hc)

/-- A window sum of a function that vanishes on the window. -/
theorem sum_range_eq_zero (f : ℕ → ℚ) (s k : ℕ)
    (h : ∀ j ∈ List.range' s k, f j = 0) : sum_range f s k = 0 := by
  unfold sum_range
  apply List.sum_eq_zero
  intro x hx
  obtain ⟨j, hj, rfl⟩ := List.mem_map.mp hx
  exact h j hj

/-- A window sum of a function that is constant on the window. -/
theorem sum_range_const (f : ℕ → ℚ) (s k : ℕ) (c : ℚ)
    (h : ∀ j ∈ List.range' s k, f j = c) : sum_range f s k = k * c := by
  unfold sum_range
  rw [List.map_congr_left h, List.map_const', List.length_range',
    List.sum_replicate, nsmul_eq_mul]

/-- On a flat series all clipped gains vanish, all clipped losses vanish,
so the RSI column is `NaN` (0/0) at every in-range row. -/
theorem rsiAt_flat (n per i : ℕ) (p : ℚ) (hi : i < n) :
    rsiAt (List.replicate n p) per i = none := by
  unfold rsiAt
  split
  · rfl
  · rename_i hge
    have hg : sum_range (gainAt (List.replicate n p)) (i + 1 - per) per = 0 := by
      apply sum_range_eq_zero
      intro j hj
      obtain ⟨k, hk, rfl⟩ := List.mem_range'.mp hj
      unfold gainAt
      split
      · rfl
      · rw [closeQ_replicate p (by omega), closeQ_replicate p (by omega)]
        simp
    have hl : sum_range (lossAt (List.replicate n p)) (i + 1 - per) per = 0 := by
      apply sum_range_eq_zero
      intro j hj
      obtain ⟨k, hk, rfl⟩ := List.mem_range'.mp hj
      unfold lossAt
      split
      · rfl
      · rw [closeQ_replicate p (by omega), closeQ_replicate p (by omega)]
        simp
    simp only [hg, hl, zero_div]
    norm_num

/-- On a flat series the rolling moving average is either still undefined
or exactly the constant price. -/
theorem maAt_flat (n per i : ℕ) (p : ℚ) (hi : i < n) (hper : 1 ≤ per) :
    maAt (List.replicate n p) per i = none ∨
      maAt (List.replicate n p) per i = some p := by
  unfold maAt
  split
  · exact Or.inl rfl
  · rename_i hge
    right
    have hs : sum_range (closeQ (List.replicate n p)) (i + 1 - per) per
        = per * p := by
      apply sum_range_const
      intro j hj
      obtain ⟨k, hk, rfl⟩ := List.mem_range'.mp hj
      exact closeQ_replicate p (by omega)
    rw [hs]
    congr 1
    have hper' : (per : ℚ) ≠ 0 := Nat.cast_ne_zero.mpr (by omega)
    field_simp

/-- The price-action score of a flat prefix is zero: no price change, no
MA deviation, no momentum, zero spread. -/
theorem scalping_base_score_flat (m : ℕ) (p : ℚ) (hm : 5 ≤ m) :
    scalping_base_score (List.replicate m p) = 0 := by
  have hcur : closeQ (List.replicate m p) (m - 1) = p := closeQ_replicate p (by omega)
  have hprev : closeQ (List.replicate m p) (m - 2) = p := closeQ_replicate p (by omega)
  have h3 : closeQ (List.replicate m p) (m - 3) = p := closeQ_replicate p (by omega)
  have hlast5 : last5 (List.replicate m p) = List.replicate 5 p := by
    rw [last5, List.length_replicate, List.drop_replicate]
    congr 1
    omega
  have hma : short_ma (List.replicate m p) = p := by
    rw [short_ma, hlast5, List.sum_replicate, nsmul_eq_mul]
    norm_num
  have hssd : ssd5 (List.replicate m p) = 0 := by
    rw [ssd5, hlast5, hma]
    apply List.sum_eq_zero
    intro x hx
    obtain ⟨y, hy, rfl⟩ := List.mem_map.mp hx
    rw [List.eq_of_mem_replicate hy]
    ring
  have hvb : vol_in_band (List.replicate m p) = false := by
    apply decide_eq_false
    rintro ⟨h1, h2, h3'⟩
    rw [hssd] at h2
    nlinarith [sq_nonneg (8/10000 * short_ma (List.replicate m p))]
  have hvh : vol_high (List.replicate m p) = false := by
    apply decide_eq_false
    rintro (⟨h1, h2⟩ | ⟨h1, h2⟩)
    · rw [hssd] at h2
      nlinarith [sq_nonneg (5/1000 * short_ma (List.replicate m p))]
    · rw [hssd] at h2
      exact absurd h2 (lt_irrefl 0)
  unfold scalping_base_score
  dsimp only
  rw [List.length_replicate, if_pos (show 1 < m by omega), hcur, hprev, h3,
    hma, sub_self, hvb, hvh]
  rw [divGT_zero p (5/10000) (by norm_num), divLT_zero p (-5/10000) (by norm_num),
    divGT_zero p (8/10000) (by norm_num), divLT_zero p (-8/10000) (by norm_num),
    divGT_zero p 0 (by norm_num), divLT_zero p 0 (by norm_num)]
  simp

/-- The scalping signal holds on every flat prefix of at least five rows,
at the default entry threshold. -/
theorem generate_scalping_signal_flat (m : ℕ) (p : ℚ) (hm : 5 ≤ m)
    (ma : Option ℚ) (hma : ma = none ∨ ma = some p) :
    generate_scalping_signal (List.replicate m p) none ma 50
      = ⟨.hold, 0, none, none⟩ := by
  have hcur : closeQ (List.replicate m p) (m - 1) = p := closeQ_replicate p (by omega)
  unfold generate_scalping_signal
  rw [List.length_replicate, if_neg (show ¬m = 0 by omega),
    if_neg (show ¬(2 ≤ m ∧ m < 5) by omega),
    if_pos (show 5 ≤ m from hm), scalping_base_score_flat m p hm, hcur]
  rcases hma with rfl | rfl <;> norm_num

/-- One flat-series loop step keeps the position and trade lists empty:
the signal is always hold, so nothing opens and nothing can close. -/
theorem backtest_step_flat (n : ℕ) (p risk : ℚ) (maxpos : ℕ) (i : ℕ)
    (hi1 : 10 ≤ i) (hi2 : i < n) (st : BTState)
    (hpos : st.positions = []) (htr : st.trades = []) :
    (backtest_step default_scalp_params (flat_series n p)
      (List.replicate n p) risk maxpos st i).positions = [] ∧
    (backtest_step default_scalp_params (flat_series n p)
      (List.replicate n p) risk maxpos st i).trades = [] := by
  have htake : (List.replicate n p).take (i + 1) = List.replicate (i + 1) p := by
    rw [List.take_replicate]
    congr 1
    omega
  have hsig : generate_scalping_signal ((List.replicate n p).take (i + 1))
      (rsiAt (List.replicate n p) 14 i) (maAt (List.replicate n p) 20 i) 50
      = ⟨.hold, 0, none, none⟩ := by
    rw [htake, rsiAt_flat n 14 i p hi2]
    exact generate_scalping_signal_flat (i + 1) p (by omega) _
      (maAt_flat n 20 i p hi2 (by norm_num))
  have hsig2 : generate_scalping_signal (List.replicate ((i + 1) ⊓ n) p)
      (rsiAt (List.replicate n p) 14 i) (maAt (List.replicate n p) 20 i) 50
      = ⟨.hold, 0, none, none⟩ := by
    rw [show (i + 1) ⊓ n = i + 1 from by omega, ← htake]
    exact hsig
  constructor <;>
    simp [backtest_step, entry_phase, close_decisions, closed_trades,
      kept_positions, default_scalp_params, hpos, htr, hsig2]

/-- The whole flat-series backtest: the loop never opens a position, so
the analysis sees an empty trade list. -/
theorem execute_backtest_flat (n : ℕ) (p initial risk : ℚ) (maxpos : ℕ)
    (hn : 20 ≤ n) :
    execute_backtest (flat_series n p) default_scalp_params initial risk maxpos
      = ⟨false, 0, 0, none, 0, 0, none, none, none, 0, none, none, none, []⟩ := by
  have hlen : (flat_series n p).length = n := by
    simp [flat_series]
  have hcl : (flat_series n p).map Bar.close = List.replicate n p :=
    flat_closes n p
  unfold execute_backtest
  simp only [hcl, hlen]
  rw [show min 10 (n - 5) = 10 from by omega]
  have hfold : ((List.range' 10 (n - 10)).foldl
        (backtest_step default_scalp_params (flat_series n p)
          (List.replicate n p) risk maxpos)
        ⟨initial, [], [], []⟩).positions = [] ∧
      ((List.range' 10 (n - 10)).foldl
        (backtest_step default_scalp_params (flat_series n p)
          (List.replicate n p) risk maxpos)
        ⟨initial, [], [], []⟩).trades = [] :=
    foldl_preserve_mem (fun st : BTState => st.positions = [] ∧ st.trades = []) _ _
      (fun st i hi hst => by
        obtain ⟨k, hk, rfl⟩ := List.mem_range'.mp hi
        exact backtest_step_flat n p risk maxpos _ (by omega)
          (by omega) st hst.1 hst.2)
      _ ⟨rfl, rfl⟩
  rw [hfold.1, hfold.2]
  simp [analyze_results]

end BacktestEngine

open BacktestEngine in
/-- C5 (amended).  On every completely flat price series long enough to
pass the minimum-data check, the default scalping backtest executes zero
trades and returns the zero-trade summary dictionary: `total_trades = 0`,
`total_profit = 0` (so the account balance is unchanged), and no
`final_balance` key at all (`none`) — rather than a `final_balance` equal
to the initial balance. -/
theorem C5_flat_series_zero_trades (n : ℕ) (p initial risk : ℚ)
    (maxpos : ℕ) (hn : 20 ≤ n) :
    run_backtest (flat_series n p) default_scalp_params initial risk maxpos =
      some ⟨false, 0, 0, none, 0, 0, none, none, none, 0, none, none, none, []⟩ := by
  unfold run_backtest
  rw [if_neg (by simp [flat_series]; omega),
    execute_backtest_flat n p initial risk maxpos hn]

open BacktestEngine in
/-- C5, witness: the amended theorem at the concrete flat 20-bar series at
price 100 with the engine's default balance, risk and position limit. -/
theorem C5_flat_series_zero_trades_witness :
    run_backtest (flat_series 20 100) default_scalp_params 100000 (1/50) 3 =
      some ⟨false, 0, 0, none, 0, 0, none, none, none, 0, none, none, none, []⟩ :=
  C5_flat_series_zero_trades 20 100 100000 (1/50) 3 (by norm_num)

set_option maxRecDepth 4000 in
open BacktestEngine in
/-- C5, counterexample to the claim as stated: the zero-trade result of
the flat 20-bar run carries no `final_balance` at all, so it does not
equal the initial balance. -/
theorem C5_counterexample_no_final_balance :
    (run_backtest (flat_series 20 100) default_scalp_params 100000 (1/50) 3).map
      AnalyzeResult.final_balance = some none ∧
    (none : Option ℚ) ≠ some 100000 := by
  refine ⟨by decide, by decide⟩

namespace BacktestEngine

/-- Every trade a loop step appends exits at the current bar's close price
and timestamp; the entry phase never touches the trade list. -/
theorem backtest_step_trades_spec (params : ScalpParams) (bars : List Bar)
    (closes : List ℚ) (risk : ℚ) (maxpos : ℕ) (st : BTState) (i : ℕ) :
    ∃ new : List Trade,
      (backtest_step params bars closes risk maxpos st i).trades
        = st.trades ++ new ∧
      ∀ t ∈ new, t.exit_time = (bars.getD i default).ts ∧
        t.exit_price = (bars.getD i default).close := by
  have h1 : (entry_phase params bars closes risk maxpos st i).trades
      = st.trades := by
    unfold entry_phase
    dsimp only
    split
    · split
      · rfl
      · split <;> rfl
      · split <;> rfl
    · rfl
  refine ⟨closed_trades params bars
    (entry_phase params bars closes risk maxpos st i) i, ?_, ?_⟩
  · show (backtest_step params bars closes risk maxpos st i).trades = _
    unfold backtest_step
    dsimp only
    rw [h1]
  · intro t ht
    obtain ⟨d, hd, hmatch⟩ := List.mem_filterMap.mp ht
    rcases hcase : d.2.1 with _ | reason
    · rw [hcase] at hmatch
      exact absurd hmatch (by simp)
    · rw [hcase] at hmatch
      simp only [Option.some.injEq] at hmatch
      rw [← hmatch]
      exact ⟨rfl, rfl⟩

end BacktestEngine

open BacktestEngine in
/-- The analysis echoes the trade list it is given in every branch. -/
theorem analyze_results_trades (T : List Trade) (E : List EquityPoint)
    (init : ℚ) : (analyze_results T E init).trades = T := by
  unfold analyze_results
  split_ifs with h1 h2
  · exact h1.symm
  · rfl
  · rfl

open BacktestEngine in
/-- C9.  (1) Every trade produced by the backtest exits at the close price
and timestamp of some bar of the series — the bar on which its exit
condition fired, the final bar for the end-of-data force close; (2) the
close decision reads only the bar's close, never its high or low; (3) the
stop-loss branch can fire with the close strictly beyond the configured
stop level — the fill is the close, not the stop. -/
theorem C9_exits_fill_at_bar_close :
    (∀ (bars : List Bar) (params : ScalpParams) (initial risk : ℚ)
      (maxpos : ℕ),
      ∀ t ∈ (execute_backtest bars params initial risk maxpos).trades,
        ∃ i, i < bars.length ∧ t.exit_price = (bars.getD i default).close ∧
          t.exit_time = (bars.getD i default).ts) ∧
    (∀ (pos : Position) (b b' : Bar) (now : ℚ) (trend : ℤ) (p : CloseParams),
      b.close = b'.close →
      should_close_position pos b now trend p
        = should_close_position pos b' now trend p) ∧
    (∃ (pos : Position) (b : Bar) (now : ℚ) (trend : ℤ) (p : CloseParams)
      (sl : ℚ), pos.stop_loss = some sl ∧
      (should_close_position pos b now trend p).1 = some .stop_loss ∧
      b.close < sl) := by
  refine ⟨?_, ?_, ?_⟩
  · intro bars params initial risk maxpos t ht
    unfold execute_backtest at ht
    dsimp only at ht
    rw [analyze_results_trades] at ht
    rcases List.mem_append.mp ht with h | h
    · have hP := foldl_preserve_mem
        (fun st : BTState => ∀ t' ∈ st.trades,
          ∃ i, i < bars.length ∧ t'.exit_price = (bars.getD i default).close ∧
            t'.exit_time = (bars.getD i default).ts)
        (List.range' (min 10 (bars.length - 5))
          (bars.length - min 10 (bars.length - 5)))
        (backtest_step params bars (bars.map Bar.close) risk maxpos)
        (fun st i hi hst => by
          obtain ⟨new, hnew, hprops⟩ := backtest_step_trades_spec params bars
            (bars.map Bar.close) risk maxpos st i
          intro t' ht'
          rw [hnew] at ht'
          rcases List.mem_append.mp ht' with h' | h'
          · exact hst t' h'
          · obtain ⟨hti, htp⟩ := hprops t' h'
            obtain ⟨k, hk, rfl⟩ := List.mem_range'.mp hi
            exact ⟨min 10 (bars.length - 5) + 1 * k, by omega, htp, hti⟩)
        ⟨initial, [], [], []⟩ (by intro t' ht'; simp at ht')
      exact hP t h
    · obtain ⟨pos, hpos, rfl⟩ := List.mem_map.mp h
      refine ⟨bars.length - 1, ?_, rfl, rfl⟩
      rcases Nat.eq_zero_or_pos bars.length with hz | hpos'
      · exfalso
        rw [hz] at hpos
        simp at hpos
      · omega
  · intro pos b b' now trend p h
    simp only [should_close_position, h]
  · exact ⟨c9_pos, c9_gap_bar, 0, 0, { strategy_type := .scalping }, 95,
      rfl, by decide, by norm_num [c9_gap_bar]⟩

set_option maxRecDepth 8000 in
set_option maxHeartbeats 2000000 in
open BacktestEngine in
/-- C9, witness: the exit-fill theorem applied to the concrete jump-series
run, whose single trade is a buy at bar 10 closed by the holding limit at
bar 12; its membership in the produced trade list is checked by
evaluation. -/
theorem C9_exits_fill_at_bar_close_witness :
    ∃ i, i < c9_bars.length ∧
      ((execute_backtest c9_bars default_scalp_params 100000 (1/50) 3).trades.getD
          0 default).exit_price = (c9_bars.getD i default).close ∧
      ((execute_backtest c9_bars default_scalp_params 100000 (1/50) 3).trades.getD
          0 default).exit_time = (c9_bars.getD i default).ts :=
  C9_exits_fill_at_bar_close.1 c9_bars default_scalp_params 100000 (1/50) 3 _
    (by decide)

end FxAuto
